/-
Verification of the QuadViewAnalyzer signal-selection / time-reference core.

The Python sources are shallowly embedded:
* Python `dict`s become insertion-ordered association lists `List (String × α)`
  (Python dicts preserve insertion order; assignment to an existing key keeps
  its position, a new key is appended).
* numpy arrays of floats become `List ℤ`; Python `None` becomes `PyData.pynone`.
* Functions that may raise return `Option _`; `none` models an uncaught
  exception propagating out of the function.
-/
import Mathlib

set_option autoImplicit false

/-- A Python runtime value as stored in `loaded_data` and the two selection
stores of `QuadViewModel`: a numeric array, a nested dict, or `None`. -/
inductive PyData where
  | arr : List ℤ → PyData
  | dict : List (String × PyData) → PyData
  | pynone : PyData

/-- `d.get(k)` / `d[k]` on an insertion-ordered dict: first matching key. -/
def aget {α : Type} : List (String × α) → String → Option α
  | [], _ => none
  | (k', v') :: r, k => if k' = k then some v' else aget r k

/-- `k in d` membership test on a dict. -/
def amem {α : Type} (l : List (String × α)) (k : String) : Bool :=
  (aget l k).isSome

/-- `d[k] = v`: replace the value at an existing key in place, otherwise
append the new binding at the end (Python dict insertion-order semantics). -/
def aset {α : Type} : List (String × α) → String → α → List (String × α)
  | [], k, v => [(k, v)]
  | (k', v') :: r, k, v => if k' = k then (k, v) :: r else (k', v') :: aset r k v

/-- `del d[k]`: remove the binding for `k` (the first occurrence). -/
def adel {α : Type} : List (String × α) → String → List (String × α)
  | [], _ => []
  | (k', v') :: r, k => if k' = k then r else (k', v') :: adel r k

/-- `isinstance(v, dict)`. -/
def isDict : PyData → Bool
  | .dict _ => true
  | _ => false

/-- `isinstance(d.get(k, []), dict)`-style test on an optional lookup
(a missing key defaults to a non-dict value). -/
def isDictOpt : Option PyData → Bool
  | some (.dict _) => true
  | _ => false

/-- `v - r` for a scalar `r`: elementwise on an array, raises (`none`) on a
dict or `None` (Python `TypeError`). -/
def pySub : PyData → ℤ → Option PyData
  | .arr xs, r => some (.arr (xs.map (fun x => x - r)))
  | _, _ => none


/-! ## The ViewModel state (`QuadViewModel`)

Fields relevant to the selection / time-reference state machine. `mat_suffix`
models `self.mat.suffix`; `global_ts_ref` is `None` (`Option.none`) before a
file is loaded. -/

structure VMState where
  mat_suffix : String
  loaded_data : List (String × PyData)
  selected_signals_data : List (String × PyData)
  selected_di_only_data : List (String × PyData)
  global_ts_ref : Option ℤ

/-- Which of the two selection stores a call operates on
(`backend_memory` defaulting to `selected_signals_data`). -/
inductive StoreId where
  | primary
  | di

def getStore (st : VMState) : StoreId → List (String × PyData)
  | .primary => st.selected_signals_data
  | .di => st.selected_di_only_data

def setStore (st : VMState) : StoreId → List (String × PyData) → VMState
  | .primary, s => { st with selected_signals_data := s }
  | .di, s => { st with selected_di_only_data := s }

/-- `QuadModel.invalid_signal`: a path is invalid iff it has fewer than 2 keys. -/
def invalid_signal (path : List String) : Bool :=
  path.length < 2

/-- `signal_path[-1]`. -/
def childOf (path : List String) : String :=
  path.getLastD ""

/-- `signal_path[-2]`. -/
def parentOf (path : List String) : String :=
  path.dropLast.getLastD ""

/-- `QuadViewModel.is_mat_loaded`: `self.mat.suffix == ".mat" and self.loaded_data != {}`. -/
def is_mat_loaded (st : VMState) : Bool :=
  st.mat_suffix = ".mat" && !st.loaded_data.isEmpty

/-- The traversal in `select_item`:
`for key in signal_path[:-1]: temp_data = temp_data.get(key, {})`.
A missing key yields `{}` and the walk continues; calling `.get` on a
non-dict value raises (`none`).  The final `temp_data` may be any value. -/
def resolvePrefix (d : List (String × PyData)) : List String → Option PyData
  | [] => some (.dict d)
  | k :: ks =>
    match aget d k with
    | some (.dict d') => resolvePrefix d' ks
    | some v => if ks.isEmpty then some v else none
    | none => resolvePrefix [] ks

/-- `QuadViewModel.is_signal_already_selected` (always reads the primary
store).  `child in store[parent]` on a numeric array is `False`; on `None` it
raises `TypeError` (`none`). -/
def is_signal_already_selected (st : VMState) (signal_path : List String) : Option Bool :=
  if invalid_signal signal_path then some false
  else
    match aget st.selected_signals_data (parentOf signal_path) with
    | none => some false
    | some (.dict e) => some (amem e (childOf signal_path))
    | some (.arr _) => some false
    | some .pynone => none

/-- `QuadViewModel.deselect_item`.  Note: the source evaluates
`backend_memory[parent][child]` *before* its `try` block, so a path that was
never selected raises an uncaught `KeyError` (`none`); the `except KeyError`
handler below the lookup is unreachable (the `del` statements can no longer
fail once the lookup has succeeded). -/
def deselect_item (st : VMState) (signal_path : List String) (sid : StoreId) :
    Option (Bool × String × VMState) :=
  if invalid_signal signal_path then some (false, "", st)
  else
    let parent := parentOf signal_path
    let child := childOf signal_path
    let store := getStore st sid
    match aget store parent with
    | none => none
    | some (.arr _) => none
    | some .pynone => none
    | some (.dict entry) =>
      match aget entry child with
      | none => none
      | some cv =>
        let name := parent ++ "/" ++ child
        if isDict cv then
          some (true, name, setStore st sid (aset store parent (.dict (adel entry child))))
        else if entry.length ≤ 3 then
          some (true, name, setStore st sid (adel store parent))
        else
          some (true, name, setStore st sid (aset store parent (.dict (adel entry child))))

/-- `QuadViewModel.select_item`.  Faithful to the source's branch structure:
custom (nested-dict) children are stored as `{ts, ts_raw, val}`; plain
children require a `TimestampLogfile` sibling; `ts` is only adjusted when the
global reference is set and nonzero; the trailing `if not parent` check makes
a path whose second-to-last key is the empty string return `False` *after*
mutating the store. -/
def select_item (st : VMState) (signal_path : List String) (sid : StoreId) :
    Option (Bool × VMState) :=
  if invalid_signal signal_path then some (false, st)
  else
    let child := childOf signal_path
    let parent := parentOf signal_path
    match resolvePrefix st.loaded_data signal_path.dropLast with
    | none => none
    | some (.arr _) => none
    | some .pynone => none
    | some (.dict td) =>
      if td.isEmpty then some (false, st)
      else if isDictOpt (aget td child) then
        -- custom item branch: `isinstance(temp_data.get(child, []), dict)`
        match aget td child with
        | some (.dict child_data) =>
          match aget child_data "x" with
          | none => none
          | some .pynone => none
          | some xv =>
            match (match st.global_ts_ref with
                   | some r => if r ≠ 0 then pySub xv r else some xv
                   | none => some xv) with
            | none => none
            | some ts =>
              let store := getStore st sid
              let store1 := if amem store parent then store else aset store parent (.dict [])
              match aget store1 parent with
              | some (.dict entry) =>
                let cdict : PyData :=
                  .dict [("ts", ts), ("ts_raw", xv), ("val", (aget child_data "y").getD .pynone)]
                let st' := setStore st sid (aset store1 parent (.dict (aset entry child cdict)))
                if parent = "" then some (false, st') else some (true, st')
              | _ => none
        | _ => none  -- unreachable: the branch is guarded by the isinstance test
      else if amem td "TimestampLogfile" then
        -- general TimestampLogfile branch
        let cv := (aget td child).getD (.arr [])
        let store := getStore st sid
        if amem store parent then
          match aget store parent with
          | some (.dict entry) =>
            let st' := setStore st sid (aset store parent (.dict (aset entry child cv)))
            if parent = "" then some (false, st') else some (true, st')
          | _ => none
        else
          match aget td "TimestampLogfile" with
          | some .pynone => none
          | some tlv =>
            match (match st.global_ts_ref with
                   | some r => if r ≠ 0 then pySub tlv r else some tlv
                   | none => some tlv) with
            | none => none
            | some ts =>
              let entry := aset [("ts", ts), ("ts_raw", tlv)] child cv
              let st' := setStore st sid (aset store parent (.dict entry))
              if parent = "" then some (false, st') else some (true, st')
          | none => none
      else some (false, st)

/-- `QuadViewModel.deselect_all_signals`. -/
def deselect_all_signals (st : VMState) : VMState :=
  { st with selected_signals_data := [], selected_di_only_data := [] }

/-- One iteration of `for custom_item in item.values():
custom_item["ts"] = custom_item["ts_raw"] - self.global_ts_ref`.
Indexing a non-dict with a string, a missing `"ts_raw"`, or subtracting from
a non-array all raise (`none`). -/
def recomputeChild (r : ℤ) : String × PyData → Option (String × PyData)
  | (k, .dict d) =>
    match aget d "ts_raw" with
    | some (.arr xs) => some (k, .dict (aset d "ts" (.arr (xs.map (fun x => x - r)))))
    | _ => none
  | _ => none

def recomputeChildren (r : ℤ) : List (String × PyData) → Option (List (String × PyData))
  | [] => some []
  | c :: rest =>
    match recomputeChild r c with
    | none => none
    | some c' => (recomputeChildren r rest).map (fun cs => c' :: cs)

/-- The per-entry body of the recompute loop in `update_global_ts_ref`:
`custom_dict = isinstance(next(iter(item.values()), None), dict)` inspects
only the *first* value of the entry; custom-shaped entries recompute every
child's nested `ts`, plain entries recompute the top-level `ts` only when
`"ts_raw" in item`, and anything else is silently skipped. -/
def recomputeEntry (r : ℤ) : PyData → Option PyData
  | .dict [] => some (.dict [])
  | .dict (kv0 :: rest) =>
    if isDict kv0.2 then (recomputeChildren r (kv0 :: rest)).map (fun cs => .dict cs)
    else if amem (kv0 :: rest) "ts_raw" then
      match aget (kv0 :: rest) "ts_raw" with
      | some (.arr xs) =>
        some (.dict (aset (kv0 :: rest) "ts" (.arr (xs.map (fun x => x - r)))))
      | _ => none
    else some (.dict (kv0 :: rest))
  | _ => none

def recomputeStore (r : ℤ) : List (String × PyData) → Option (List (String × PyData))
  | [] => some []
  | (k, v) :: rest =>
    match recomputeEntry r v with
    | none => none
    | some v' => (recomputeStore r rest).map (fun s => (k, v') :: s)

/-- `QuadViewModel.update_global_ts_ref`.  The argument is the result of the
`float(ts)` coercion: `none` when the coercion raised (caught, returns
`False`).  Mirrors the source's order of checks; note that in the
"both stores empty" case the reference HAS already been updated before the
`False` return. -/
def update_global_ts_ref (st : VMState) (inp : Option ℤ) : Option (Bool × VMState) :=
  match inp with
  | none => some (false, st)
  | some v =>
    if st.global_ts_ref = some v then some (false, st)
    else if !is_mat_loaded st then some (false, st)
    else
      let st1 := { st with global_ts_ref := some v }
      if st1.selected_signals_data.isEmpty && st1.selected_di_only_data.isEmpty then
        some (false, st1)
      else
        match recomputeStore v st1.selected_signals_data with
        | none => none
        | some s1 =>
          match recomputeStore v st1.selected_di_only_data with
          | none => none
          | some s2 =>
            some (true, { st1 with selected_signals_data := s1, selected_di_only_data := s2 })

/-! ## `QuadModel.merge_dicts`

The source copies `base_dict`, then walks an explicit stack of
`(current_base, current_source)` pairs.  A nested merge is pushed when the
key exists in the base and *the base's* value is a dict (the third conjunct
`isinstance(current_source, dict)` tests the dict currently being iterated,
which is always a dict).  A pushed pair whose source value is not a dict
raises `AttributeError` when `current_source.items()` is evaluated (`none`).
Since every pushed pair mutates a disjoint fresh copy inside the result, the
LIFO processing order is equivalent to the recursion below. -/

mutual

def mergeVal (b : List (String × PyData)) : PyData → Option (List (String × PyData))
  | .dict items => mergeItems b items
  | _ => none

def mergeItems (b : List (String × PyData)) :
    List (String × PyData) → Option (List (String × PyData))
  | [] => some b
  | (k, sv) :: rest =>
    match aget b k with
    | some (.dict nb) =>
      match mergeVal nb sv with
      | none => none
      | some nb' => mergeItems (aset b k (.dict nb')) rest
    | _ => mergeItems (aset b k sv) rest

end

def merge_dicts (base_dict override_dict : List (String × PyData)) :
    Option (List (String × PyData)) :=
  mergeItems base_dict override_dict

/-! ## `QuadModel.parse_conf`

String primitives are re-implemented by structural recursion on the
character list (`str.strip`, `str.split`, `str.startswith`, `in`).  The
delimiters are modelled as single characters: the source is only ever
invoked with its defaults `";"` and `"/"`. -/

def trimChars (l : List Char) : List Char :=
  ((l.dropWhile Char.isWhitespace).reverse.dropWhile Char.isWhitespace).reverse

/-- Python `row.strip()`. -/
def pyStrip (s : String) : String :=
  ⟨trimChars s.data⟩

def splitOnChar (sep : Char) : List Char → List (List Char)
  | [] => [[]]
  | c :: rest =>
    if c = sep then [] :: splitOnChar sep rest
    else
      match splitOnChar sep rest with
      | [] => [[c]]
      | g :: gs => (c :: g) :: gs

/-- Python `row.split(sep)` for a one-character separator. -/
def pySplit (s : String) (sep : Char) : List String :=
  (splitOnChar sep s.data).map (fun l => ⟨l⟩)

/-- Python `row.startswith(c)`. -/
def pyStartsWith (s : String) (c : Char) : Bool :=
  match s.data with
  | [] => false
  | a :: _ => a = c

/-- Python `c in row`. -/
def pyContains (s : String) (c : Char) : Bool :=
  s.data.any (fun a => a = c)

/-- `[item.strip() for item in row.split(sep) if item.strip()]`. -/
def tokenize (row : String) (sep : Char) : List String :=
  ((pySplit row sep).map pyStrip).filter (fun t => t ≠ "")

/-- The body of the `for row in fid` loop of `parse_conf`. -/
def parseConfStep (sep secondary_sep : Char)
    (acc : List (List String) × List (List String)) (rowRaw : String) :
    List (List String) × List (List String) :=
  let row := pyStrip rowRaw
  if row = "" || pyStartsWith row '#' then acc
  else if pyContains row secondary_sep then (acc.1, acc.2 ++ [tokenize row secondary_sep])
  else (acc.1 ++ [tokenize row sep], acc.2)

/-- `QuadModel.parse_conf`. The file is modelled by its extension (`suffix`)
and the list of its lines. -/
def parse_conf (suffix : String) (lines : List String) (sep secondary_sep : Char) :
    List (List String) × List (List String) :=
  if suffix ≠ ".conf" then ([], [])
  else lines.foldl (parseConfStep sep secondary_sep) ([], [])

/-! ## `QuadViewModel.parse_and_load_conf`

`parse_conf` returns the *tuple* `(parsed_data, secondary_data)` and the
caller iterates `for item_path in parsed_conf_data` — i.e. over the two
buckets, so `item_path` is a list of token **lists**, never a signal path.
`is_signal_already_selected` / `select_item` applied to such a value read
only its length in their `invalid_signal` guard; a bucket with two or more
groups then reaches `parent in dict` / `dict.get(parent)` with an unhashable
`list` key, which raises `TypeError` before any store access. -/

def is_signal_already_selected_conf (bucket : List (List String)) : Option Bool :=
  if bucket.length < 2 then some false else none

def select_item_conf (st : VMState) (bucket : List (List String)) : Option (Bool × VMState) :=
  if bucket.length < 2 then some (false, st) else none

/-- One iteration of the `for item_path in parsed_conf_data` loop.  When
`select_item` reports an addition the source additionally resolves the tree
item and emits plot signals (and deselects on a tree mismatch); with conf
buckets `select_item_conf` never returns `true`, so that continuation is
unreachable here. -/
def conf_step (st : VMState) (bucket : List (List String)) : Option VMState :=
  match is_signal_already_selected_conf bucket with
  | none => none
  | some true => some st
  | some false => (select_item_conf st bucket).map (fun r => r.2)

/-- `QuadViewModel.parse_and_load_conf`. -/
def parse_and_load_conf (st : VMState) (suffix : String) (lines : List String) :
    Option VMState :=
  let parsed := parse_conf suffix lines ';' '/'
  match conf_step st parsed.1 with
  | none => none
  | some st1 => conf_step st1 parsed.2

/-! ## `model.helpers.mat_loader`

A raw scipy value is either a plain array (left untouched) or a
`mat_struct` with ordered fieldnames.  `_todict_iterative` converts structs
to dicts with fieldnames in case-insensitive lexical order (Python
`sorted(..., key=lambda s: s.lower())`, a stable sort); the explicit
work-list touches disjoint fresh dicts, so it equals the recursion below.
`loadmat` pops the three reserved metadata keys at the top level, then
`_check_keys` replaces struct *values* in the top-level dict — it iterates
the keys in sorted order but never reorders the top-level dict itself. -/

inductive MatObj where
  | leaf : List ℤ → MatObj
  | strct : List (String × MatObj) → MatObj

/-- ASCII lower-casing (MATLAB identifiers are ASCII). -/
def charLower (c : Char) : Char :=
  if 'A' ≤ c && c ≤ 'Z' then Char.ofNat (c.toNat + 32) else c

/-- Case-insensitive string comparison `a.lower() <= b.lower()`
(lexicographic on characters). -/
def charsLE : List Char → List Char → Bool
  | [], _ => true
  | _ :: _, [] => false
  | a :: as, b :: bs =>
    if a.toNat < b.toNat then true
    else if b.toNat < a.toNat then false
    else charsLE as bs

def ciLE (a b : String) : Bool :=
  charsLE (a.data.map charLower) (b.data.map charLower)

/-- Stable insertion into a `ciLE`-sorted association list. -/
def insertCI {α : Type} (x : String × α) : List (String × α) → List (String × α)
  | [] => [x]
  | y :: ys => if ciLE x.1 y.1 then x :: y :: ys else y :: insertCI x ys

/-- Stable sort by case-insensitive key, modelling
`sorted(keys, key=lambda s: s.lower())`. -/
def sortCI {α : Type} : List (String × α) → List (String × α)
  | [] => []
  | x :: xs => insertCI x (sortCI xs)

mutual

def todict : MatObj → PyData
  | .leaf v => .arr v
  | .strct fs => .dict (sortCI (todictFields fs))

def todictFields : List (String × MatObj) → List (String × PyData)
  | [] => []
  | (k, v) :: r => (k, todict v) :: todictFields r

end

def reservedKeys : List String :=
  ["__header__", "__version__", "__globals__"]

/-- `mat_loader.loadmat` composed with `_check_keys`, on the dict produced by
`scipy.io.loadmat`. -/
def loadmat (data : List (String × MatObj)) : List (String × PyData) :=
  let d := reservedKeys.foldl adel data
  d.map (fun kv => (kv.1, todict kv.2))

/-! ## `QuadModel.import_custom_data_points`

A candidate function's behaviour on the dataset it is handed: it raises, or
returns some Python value.  A returned value is either a 2-tuple of
components or something failing the `isinstance(result, tuple) and
len(result) == 2` check.  A component is a number (coerced to a one-element
array), a sized sequence, or an unsized object on which `len()` raises —
note that the `len` call sits *outside* the per-candidate `try`. -/

inductive RetComp where
  | num : ℤ → RetComp
  | seqv : List ℤ → RetComp
  | unsized : RetComp

inductive RetVal where
  | tup2 : RetComp → RetComp → RetVal
  | malformed : RetVal

inductive CandOutcome where
  | raises : CandOutcome
  | returns : RetVal → CandOutcome

/-- Scalar coercion followed by `len`: `none` when `len` raises. -/
def asSized : RetComp → Option (List ℤ)
  | .num q => some [q]
  | .seqv s => some s
  | .unsized => none

def importGo (acc : List (String × PyData)) :
    List (String × CandOutcome) → Option (List (String × PyData))
  | [] => some acc
  | (name, oc) :: rest =>
    match oc with
    | .raises => importGo acc rest
    | .returns .malformed => importGo acc rest
    | .returns (.tup2 x y) =>
      match asSized x with
      | none => none
      | some xs =>
        if xs.isEmpty then importGo acc rest
        else
          match asSized y with
          | none => none
          | some ys =>
            if ys.isEmpty then importGo acc rest
            else importGo (aset acc name (.dict [("x", .arr xs), ("y", .arr ys)])) rest

/-- `QuadModel.import_custom_data_points`: every candidate is invoked on a
deep copy of `data`, so each observes the same pristine dataset and none can
mutate it (value semantics of the copy). -/
def import_custom_data_points (data : List (String × PyData))
    (cands : List (String × (List (String × PyData) → CandOutcome))) :
    Option (List (String × PyData)) :=
  importGo [] (cands.map (fun c => (c.1, c.2 data)))

/-! ## Spec-side predicates -/

/-- Per-line routing of `parse_conf` restated from the spec: a non-blank,
non-comment line containing the secondary delimiter contributes its
secondary tokens. -/
def confRowSecondary (secondary_sep : Char) (rowRaw : String) : Option (List String) :=
  let row := pyStrip rowRaw
  if row = "" || pyStartsWith row '#' then none
  else if pyContains row secondary_sep then some (tokenize row secondary_sep)
  else none

/-- Per-line routing of `parse_conf` restated from the spec: a non-blank,
non-comment line without the secondary delimiter contributes its primary
tokens. -/
def confRowPrimary (sep secondary_sep : Char) (rowRaw : String) : Option (List String) :=
  let row := pyStrip rowRaw
  if row = "" || pyStartsWith row '#' then none
  else if pyContains row secondary_sep then none
  else some (tokenize row sep)

/-- Keys of an association list are in case-insensitive lexical order
(adjacent-pairs chain). -/
def chainCI : List String → Bool
  | [] => true
  | [_] => true
  | a :: b :: r => ciLE a b && chainCI (b :: r)

mutual

/-- Every dict level reachable inside a decoded value has case-insensitively
sorted keys. -/
def nodeSorted : PyData → Bool
  | .arr _ => true
  | .pynone => true
  | .dict l => chainCI (l.map Prod.fst) && nodesSorted l

def nodesSorted : List (String × PyData) → Bool
  | [] => true
  | kv :: r => nodeSorted kv.2 && nodesSorted r

end

mutual

/-- No reserved metadata key occurs at any dict level of a decoded value. -/
def noReservedNode : PyData → Bool
  | .arr _ => true
  | .pynone => true
  | .dict l => noReservedEntries l

def noReservedEntries : List (String × PyData) → Bool
  | [] => true
  | (k, v) :: r => !reservedKeys.contains k && noReservedNode v && noReservedEntries r

end

mutual

/-- No struct fieldname in the raw MAT value is a reserved metadata key
(MATLAB identifiers cannot start with an underscore, so this holds of every
real MAT file). -/
def matNoReservedFields : MatObj → Bool
  | .leaf _ => true
  | .strct fs => matNoReservedList fs

def matNoReservedList : List (String × MatObj) → Bool
  | [] => true
  | (k, v) :: r => !reservedKeys.contains k && matNoReservedFields v && matNoReservedList r

end

/-- The entry a candidate's outcome should contribute to the returned
mapping, mirroring the validation/coercion path of
`import_custom_data_points` (including the short-circuit of
`len(x) == 0 or len(y) == 0`). -/
def expectedGoEntry (c : String × CandOutcome) : Option (String × PyData) :=
  match c.2 with
  | .returns (.tup2 x y) =>
    match asSized x with
    | none => none
    | some xs =>
      if xs.isEmpty then none
      else
        match asSized y with
        | none => none
        | some ys =>
          if ys.isEmpty then none
          else some (c.1, .dict [("x", .arr xs), ("y", .arr ys)])
  | _ => none

/-- A candidate outcome whose validation never reaches `len()` of an unsized
object (so the batch cannot be aborted by it). -/
def sizedOutcome : CandOutcome → Bool
  | .returns (.tup2 x y) =>
    match asSized x with
    | none => false
    | some xs => xs.isEmpty || (asSized y).isSome
  | _ => true

/-- The shape `update_global_ts_ref` establishes in an entry it successfully
recomputed: custom-kind entries (first value a dict) have every child's
nested `ts` equal to its `ts_raw - v`; plain-kind entries with a `ts_raw`
key have their top-level `ts` equal to `ts_raw - v`. -/
def entryRecomputed (v : ℤ) : PyData → Prop
  | .dict [] => True
  | .dict (kv0 :: rest) =>
    if isDict kv0.2 then
      ∀ c ∈ kv0 :: rest, ∃ d, c.2 = PyData.dict d ∧
        ∃ xs, aget d "ts_raw" = some (.arr xs) ∧
          aget d "ts" = some (.arr (xs.map (fun x => x - v)))
    else
      amem (kv0 :: rest) "ts_raw" = true →
        ∃ xs, aget (kv0 :: rest) "ts_raw" = some (.arr xs) ∧
          aget (kv0 :: rest) "ts" = some (.arr (xs.map (fun x => x - v)))
  | _ => False

/-- A selection entry built by plain (`TimestampLogfile`) selections: the
bookkeeping keys are present. -/
def PlainShaped (e : List (String × PyData)) : Prop :=
  amem e "ts" = true ∧ amem e "ts_raw" = true

/-- A selection entry built by custom selections only: every value is a
nested dict. -/
def CustomShaped (e : List (String × PyData)) : Prop :=
  ∀ kv ∈ e, isDict kv.2 = true

def EntryOK (v : PyData) : Prop :=
  ∃ e, v = PyData.dict e ∧ (PlainShaped e ∨ CustomShaped e)

def StoreOK (s : List (String × PyData)) : Prop :=
  ∀ kv ∈ s, EntryOK kv.2

def StoresOK (st : VMState) : Prop :=
  StoreOK st.selected_signals_data ∧ StoreOK st.selected_di_only_data

/-- Guard for a `select_item` step: a *plain* selection never lands in an
existing entry that is missing its bookkeeping keys (a custom-only entry) —
without this the new plain child is stored while `ts`/`ts_raw` creation is
skipped (see the counterexample).  Custom selections need no guard: adding
a nested-dict child preserves both entry shapes. -/
def SelectPlainGuard (st : VMState) (p : List String) (sid : StoreId) : Prop :=
  ∀ td, resolvePrefix st.loaded_data p.dropLast = some (.dict td) →
    ∀ e, aget (getStore st sid) (parentOf p) = some (.dict e) →
      isDictOpt (aget td (childOf p)) = false → PlainShaped e

/-- Guard for a `deselect_item` step: the removed child is a signal name,
not one of the bookkeeping keys. -/
def DeselectGuard (p : List String) : Prop :=
  childOf p ≠ "ts" ∧ childOf p ≠ "ts_raw"

/-- States reachable through the SignalStore operations from a state with
empty selection stores, with the two guards above on selects/deselects. -/
inductive ReachGuarded : VMState → Prop where
  | init (ms : String) (ld : List (String × PyData)) (g : Option ℤ) :
      ReachGuarded ⟨ms, ld, [], [], g⟩
  | step_select (st st' : VMState) (p : List String) (sid : StoreId) (b : Bool) :
      ReachGuarded st → SelectPlainGuard st p sid →
      select_item st p sid = some (b, st') → ReachGuarded st'
  | step_deselect (st st' : VMState) (p : List String) (sid : StoreId) (b : Bool) (n : String) :
      ReachGuarded st → DeselectGuard p →
      deselect_item st p sid = some (b, n, st') → ReachGuarded st'
  | step_update (st st' : VMState) (inp : Option ℤ) (b : Bool) :
      ReachGuarded st → update_global_ts_ref st inp = some (b, st') →
      ReachGuarded st'
  | step_deselect_all (st : VMState) :
      ReachGuarded st → ReachGuarded (deselect_all_signals st)

/-- The invariant claimed of a selection store: an entry holding at least one
non-custom child (a non-dict value under a key other than `ts`/`ts_raw`)
holds both bookkeeping keys. -/
def TsInvariant (s : List (String × PyData)) : Prop :=
  ∀ kv ∈ s, ∀ e, kv.2 = PyData.dict e →
    (∃ c ∈ e, isDict c.2 = false ∧ c.1 ≠ "ts" ∧ c.1 ≠ "ts_raw") →
    amem e "ts" = true ∧ amem e "ts_raw" = true

/-! ## Concrete fixture states -/

/-- A session with nothing loaded and empty stores. -/
def emptyVM : VMState :=
  { mat_suffix := "", loaded_data := [], selected_signals_data := [],
    selected_di_only_data := [], global_ts_ref := none }

/-- Loaded dataset holding both a plain group `P` (with `TimestampLogfile`)
and a custom group `G/P` whose child `cc` carries its own `x`/`y` — the two
resolve to the same store parent key `P`. -/
def mixVM : VMState :=
  { mat_suffix := ".mat"
    loaded_data :=
      [("P", .dict [("TimestampLogfile", .arr [10]), ("c", .arr [1])]),
       ("G", .dict [("P", .dict [("cc", .dict [("x", .arr [20]), ("y", .arr [2])])])])]
    selected_signals_data := []
    selected_di_only_data := []
    global_ts_ref := some 1 }

/-- `mixVM` after `select_item(["P","c"])`. -/
def mixVM1 : VMState :=
  { mixVM with selected_signals_data :=
      [("P", .dict [("ts", .arr [9]), ("ts_raw", .arr [10]), ("c", .arr [1])])] }

/-- `mixVM1` after `select_item(["G","P","cc"])`: the custom child landed in
the same entry as the plain child. -/
def mixVM2 : VMState :=
  { mixVM with selected_signals_data :=
      [("P", .dict [("ts", .arr [9]), ("ts_raw", .arr [10]), ("c", .arr [1]),
        ("cc", .dict [("ts", .arr [19]), ("ts_raw", .arr [20]), ("val", .arr [2])])])] }

/-- `mixVM2` after `update_global_ts_ref(5)`: the top-level `ts` was
recomputed but the nested custom `ts` was not. -/
def mixVM3 : VMState :=
  { mixVM with global_ts_ref := some 5
               selected_signals_data :=
      [("P", .dict [("ts", .arr [5]), ("ts_raw", .arr [10]), ("c", .arr [1]),
        ("cc", .dict [("ts", .arr [19]), ("ts_raw", .arr [20]), ("val", .arr [2])])])] }

/-- `mixVM` after `select_item(["G","P","cc"])` first (custom child alone). -/
def mixVMc : VMState :=
  { mixVM with selected_signals_data :=
      [("P", .dict [("cc", .dict [("ts", .arr [19]), ("ts_raw", .arr [20]), ("val", .arr [2])])])] }

/-- `mixVMc` after `select_item(["P","c"])`: a plain child joined a
custom-only entry, so no `ts`/`ts_raw` were created. -/
def mixVMm : VMState :=
  { mixVM with selected_signals_data :=
      [("P", .dict [("cc", .dict [("ts", .arr [19]), ("ts_raw", .arr [20]), ("val", .arr [2])]),
        ("c", .arr [1])])] }

/-- Loaded `.mat`, nonempty dataset, both selection stores empty. -/
def emptySelVM : VMState :=
  { mat_suffix := ".mat", loaded_data := [("A", .arr [1])],
    selected_signals_data := [], selected_di_only_data := [], global_ts_ref := some 1 }

/-- Scenario-B state: group without a `TimestampLogfile` sibling. -/
def radarVM : VMState :=
  { mat_suffix := ".mat", loaded_data := [("Radar", .dict [("Range", .arr [10, 11, 12])])],
    selected_signals_data := [], selected_di_only_data := [], global_ts_ref := some 0 }

/-- A state for the `update_global_ts_ref` recompute witness: one plain
entry in the plotting store, one custom entry in the insight store. -/
def recompVM : VMState :=
  { mat_suffix := ".mat", loaded_data := [("A", .arr [1])]
    selected_signals_data :=
      [("P", .dict [("ts", .arr [0]), ("ts_raw", .arr [10]), ("c", .arr [1])])]
    selected_di_only_data :=
      [("Q", .dict [("cc", .dict [("ts", .arr [0]), ("ts_raw", .arr [7]), ("val", .arr [1])])])]
    global_ts_ref := some 0 }

/-- `recompVM` after `update_global_ts_ref(5)`. -/
def recompVM' : VMState :=
  { recompVM with global_ts_ref := some 5
                  selected_signals_data :=
      [("P", .dict [("ts", .arr [5]), ("ts_raw", .arr [10]), ("c", .arr [1])])]
                  selected_di_only_data :=
      [("Q", .dict [("cc", .dict [("ts", .arr [2]), ("ts_raw", .arr [7]), ("val", .arr [1])])])] }

/-! ## Theorems -/

/-! ### Association-list lemmas -/

@[simp] theorem aget_nil {α : Type} (k : String) : aget ([] : List (String × α)) k = none := rfl

@[simp] theorem aget_cons {α : Type} (p : String × α) (r : List (String × α)) (k : String) :
    aget (p :: r) k = if p.1 = k then some p.2 else aget r k := by
  cases p; rfl

@[simp] theorem aset_nil {α : Type} (k : String) (v : α) :
    aset ([] : List (String × α)) k v = [(k, v)] := rfl

@[simp] theorem aset_cons {α : Type} (p : String × α) (r : List (String × α)) (k : String) (v : α) :
    aset (p :: r) k v = if p.1 = k then (k, v) :: r else p :: aset r k v := by
  cases p; rfl

@[simp] theorem adel_nil {α : Type} (k : String) : adel ([] : List (String × α)) k = [] := rfl

@[simp] theorem adel_cons {α : Type} (p : String × α) (r : List (String × α)) (k : String) :
    adel (p :: r) k = if p.1 = k then r else p :: adel r k := by
  cases p; rfl

theorem aget_aset_self {α : Type} (l : List (String × α)) (k : String) (v : α) :
    aget (aset l k v) k = some v := by
  induction l with
  | nil => simp
  | cons h t ih =>
    by_cases hk : h.1 = k <;> simp [hk, ih]

theorem aget_aset_ne {α : Type} (l : List (String × α)) (k k' : String) (v : α)
    (h : k ≠ k') : aget (aset l k v) k' = aget l k' := by
  induction l with
  | nil => simp [h]
  | cons hd t ih =>
    by_cases hk : hd.1 = k
    · simp [hk, h, ih]
    · by_cases hk' : hd.1 = k' <;> simp [hk, hk', Ne.symm h, ih]

theorem amem_aset_self {α : Type} (l : List (String × α)) (k : String) (v : α) :
    amem (aset l k v) k = true := by
  simp [amem, aget_aset_self]

theorem amem_aset_of_amem {α : Type} (l : List (String × α)) (k k' : String) (v : α)
    (h : amem l k' = true) : amem (aset l k v) k' = true := by
  by_cases hk : k = k'
  · subst hk; exact amem_aset_self l k v
  · simpa [amem, aget_aset_ne l k k' v hk] using h

theorem mem_aset {α : Type} (l : List (String × α)) (k : String) (v : α) :
    ∀ x ∈ aset l k v, x = (k, v) ∨ x ∈ l := by
  induction l with
  | nil => simp
  | cons h t ih =>
    intro x hx
    by_cases hk : h.1 = k
    · rw [aset_cons, if_pos hk, List.mem_cons] at hx
      rcases hx with hx | hx
      · exact Or.inl hx
      · exact Or.inr (List.mem_cons_of_mem _ hx)
    · rw [aset_cons, if_neg hk, List.mem_cons] at hx
      rcases hx with hx | hx
      · exact Or.inr (hx ▸ List.mem_cons_self h t)
      · rcases ih x hx with h1 | h1
        · exact Or.inl h1
        · exact Or.inr (List.mem_cons_of_mem _ h1)

theorem mem_adel {α : Type} (l : List (String × α)) (k : String) :
    ∀ x ∈ adel l k, x ∈ l := by
  induction l with
  | nil => simp
  | cons h t ih =>
    intro x hx
    by_cases hk : h.1 = k
    · rw [adel_cons, if_pos hk] at hx
      exact List.mem_cons_of_mem _ hx
    · rw [adel_cons, if_neg hk, List.mem_cons] at hx
      rcases hx with hx | hx
      · exact hx ▸ List.mem_cons_self h t
      · exact List.mem_cons_of_mem _ (ih x hx)

theorem amem_adel_ne {α : Type} (l : List (String × α)) (k k' : String)
    (hne : k' ≠ k) (h : amem l k' = true) : amem (adel l k) k' = true := by
  induction l with
  | nil => simp [amem] at h
  | cons hd t ih =>
    by_cases hk : hd.1 = k
    · have hdk' : ¬ hd.1 = k' := fun hc => hne (hk ▸ hc ▸ rfl)
      rw [adel_cons, if_pos hk]
      simpa [amem, hdk'] using h
    · by_cases hk' : hd.1 = k'
      · simp [adel_cons, hk, amem, hk', hne]
      · have h' : amem t k' = true := by simpa [amem, hk'] using h
        simpa [adel_cons, hk, amem, hk'] using ih h'

theorem aset_eq_append {α : Type} (l : List (String × α)) (k : String) (v : α)
    (h : amem l k = false) : aset l k v = l ++ [(k, v)] := by
  induction l with
  | nil => simp
  | cons hd t ih =>
    by_cases hk : hd.1 = k
    · simp [amem, hk] at h
    · have h' : amem t k = false := by simpa [amem, hk] using h
      simp [hk, ih h']

/-! ### C5 -/

/-- C5: for every path whose resolved group is a non-empty dict without a
`TimestampLogfile` sibling and whose child entry is not a nested mapping,
`select_item` returns `False` and leaves the state (in particular both
selection stores) unchanged. -/
theorem select_item_no_timestamp_fails (st : VMState) (p : List String) (sid : StoreId)
    (td : List (String × PyData))
    (hres : resolvePrefix st.loaded_data p.dropLast = some (.dict td))
    (hTL : amem td "TimestampLogfile" = false)
    (hchild : isDictOpt (aget td (childOf p)) = false) :
    select_item st p sid = some (false, st) := by
  unfold select_item
  by_cases hinv : invalid_signal p = true
  · simp [hinv]
  · simp only [hinv, if_false, Bool.false_eq_true]
    rw [hres]
    by_cases hemp : td.isEmpty
    · simp [hemp]
    · simp [hemp, hchild, hTL]

/-- Witness for C5 at the spec's Scenario B fixture. -/
theorem select_item_no_timestamp_fails_witness :
    resolvePrefix radarVM.loaded_data (["Radar", "Range"].dropLast) =
      some (.dict [("Range", .arr [10, 11, 12])])
    ∧ amem [("Range", (PyData.arr [10, 11, 12]))] "TimestampLogfile" = false
    ∧ isDictOpt (aget [("Range", (PyData.arr [10, 11, 12]))] (childOf ["Radar", "Range"])) = false
    ∧ select_item radarVM ["Radar", "Range"] .primary = some (false, radarVM) :=
  ⟨rfl, rfl, rfl,
    select_item_no_timestamp_fails radarVM ["Radar", "Range"] .primary
      [("Range", .arr [10, 11, 12])] rfl rfl rfl⟩

/-! ### C2 -/

/-- C2 (code bug): the claim — and the source's own dead `except KeyError`
handler — say a never-selected path makes `deselect_item` return
`(False, "")`; but the lookup `backend_memory[parent][child]` is evaluated
*before* the `try`, so the call raises an uncaught `KeyError` (`none`).
Here `["A", "B"]` is not selected (`is_signal_already_selected` is `False`)
in the empty store, and `deselect_item` raises instead of returning. -/
theorem deselect_item_raises_when_never_selected :
    is_signal_already_selected emptyVM ["A", "B"] = some false
    ∧ deselect_item emptyVM ["A", "B"] .primary = none :=
  ⟨rfl, rfl⟩

/-! ### C6 -/

/-- C6 (code bug): `merge_dicts`' docstring and the spec say the override's
value wins for keys present in both; but the merge condition tests
`isinstance(current_source, dict)` instead of the override *value*, so for
`A = {"k": {"a": 1}}`, `B = {"k": [5]}` the pair `({"a": 1}, [5])` is pushed
and `current_source.items()` raises `AttributeError` (`none`) instead of
producing `{"k": [5]}`.  The same inputs with a dict override value merge
fine (second conjunct), isolating the slip to the non-dict override case. -/
theorem merge_dicts_raises_on_nondict_override :
    merge_dicts [("k", .dict [("a", .arr [1])])] [("k", .arr [5])] = none
    ∧ merge_dicts [("k", .dict [("a", .arr [1]), ("b", .arr [2])])]
        [("k", .dict [("a", .arr [9])]), ("m", .arr [3])] =
        some [("k", .dict [("a", .arr [9]), ("b", .arr [2])]), ("m", .arr [3])] :=
  ⟨rfl, rfl⟩

/-! ### C3 counterexample -/

/-- C3 counterexample: with a `.mat` loaded, a coercible input different
from the current reference, but both selection stores empty,
`update_global_ts_ref(5)` returns `False` — a fourth `False` case the claim
does not list — and the displayed reference *changes* from `1` to `5`,
contradicting "whenever it returns false the reference is left unchanged". -/
theorem update_global_ts_ref_false_but_reference_changed :
    is_mat_loaded emptySelVM = true
    ∧ emptySelVM.global_ts_ref = some 1
    ∧ update_global_ts_ref emptySelVM (some 5) =
        some (false, { emptySelVM with global_ts_ref := some 5 })
    ∧ ({ emptySelVM with global_ts_ref := some 5 } : VMState).global_ts_ref ≠
        emptySelVM.global_ts_ref :=
  ⟨rfl, rfl, rfl, by decide⟩

/-! ### C1 counterexample -/

/-- C1 counterexample: from `mixVM` (empty stores), two successful selects
put a plain child `c` and a custom child `cc` under the same entry `P`; then
`update_global_ts_ref(5)` *returns true* but only recomputes the top-level
`ts` — the nested custom pair keeps `ts = [19]` although
`ts_raw - 5 = [15]`, so not every selected signal satisfies
`ts == ts_raw - v`, and `cc` was not recomputed at all. -/
theorem update_global_ts_ref_misses_nested_custom :
    select_item mixVM ["P", "c"] .primary = some (true, mixVM1)
    ∧ select_item mixVM1 ["G", "P", "cc"] .primary = some (true, mixVM2)
    ∧ update_global_ts_ref mixVM2 (some 5) = some (true, mixVM3)
    ∧ aget mixVM3.selected_signals_data "P" =
        some (.dict [("ts", .arr [5]), ("ts_raw", .arr [10]), ("c", .arr [1]),
          ("cc", .dict [("ts", .arr [19]), ("ts_raw", .arr [20]), ("val", .arr [2])])])
    ∧ (19 : ℤ) ≠ 20 - 5 :=
  ⟨rfl, rfl, rfl, rfl, by decide⟩

/-! ### C4 counterexample -/

/-- C4 counterexample: from `mixVM` (empty stores), selecting the custom
child `["G","P","cc"]` first and the plain child `["P","c"]` second reaches
a state whose entry `P` contains the non-custom child `c` but has *neither*
`ts` nor `ts_raw` — the plain branch skips creating them because the parent
key already exists. -/
theorem select_item_reaches_entry_without_ts_keys :
    select_item mixVM ["G", "P", "cc"] .primary = some (true, mixVMc)
    ∧ select_item mixVMc ["P", "c"] .primary = some (true, mixVMm)
    ∧ aget mixVMm.selected_signals_data "P" =
        some (.dict [("cc", .dict [("ts", .arr [19]), ("ts_raw", .arr [20]), ("val", .arr [2])]),
          ("c", .arr [1])])
    ∧ isDict (PyData.arr [1]) = false
    ∧ amem [("cc", PyData.dict [("ts", .arr [19]), ("ts_raw", .arr [20]), ("val", .arr [2])]),
        ("c", PyData.arr [1])] "ts" = false
    ∧ amem [("cc", PyData.dict [("ts", .arr [19]), ("ts_raw", .arr [20]), ("val", .arr [2])]),
        ("c", PyData.arr [1])] "ts_raw" = false :=
  ⟨rfl, rfl, rfl, rfl, rfl, rfl⟩

/-! ### C8 counterexample -/

/-- C8 counterexample: `_check_keys` iterates the top-level keys in sorted
order but never reorders the top-level dict, so `loadmat` keeps the loader's
top-level insertion order `["b", "a"]`, which is not case-insensitively
sorted — the claim's "including the top level" fails. -/
theorem loadmat_top_level_keeps_insertion_order :
    (loadmat [("b", .leaf [1]), ("a", .leaf [2])]).map Prod.fst = ["b", "a"]
    ∧ chainCI ["b", "a"] = false :=
  ⟨rfl, rfl⟩

/-! ### C9 counterexample -/

/-- C9 counterexample: candidate `f` returns the 2-tuple `(None, [1])` whose
first component cannot form a sequence; the claim says `f` is skipped and
`g`'s result still appears, but `len(x)` sits outside the per-candidate
`try`, so the whole call raises (`none`) and `g`'s result is lost — even
though `g` alone produces its coerced entry (second conjunct). -/
theorem import_custom_data_points_aborts_on_unsized :
    import_custom_data_points []
      [("f", fun _ => .returns (.tup2 .unsized (.seqv [1]))),
       ("g", fun _ => .returns (.tup2 (.num 1) (.num 2)))] = none
    ∧ import_custom_data_points []
        [("g", fun _ => .returns (.tup2 (.num 1) (.num 2)))] =
        some [("g", .dict [("x", .arr [1]), ("y", .arr [2])])] :=
  ⟨rfl, rfl⟩

/-! ### C3 amended -/

/-- C3 (amended): `update_global_ts_ref` returns `False` exactly when the
coercion failed, the coerced value equals the current reference, no dataset
is loaded, **or both selection stores are empty**; in the first three cases
the state (hence the displayed reference) is unchanged, while in the
empty-stores case the reference is updated to the new value. -/
theorem update_global_ts_ref_false_iff (st : VMState) (inp : Option ℤ) :
    ((∃ st', update_global_ts_ref st inp = some (false, st')) ↔
      (inp = none ∨ ∃ v, inp = some v ∧
        (st.global_ts_ref = some v ∨ is_mat_loaded st = false ∨
          (st.selected_signals_data.isEmpty = true ∧
            st.selected_di_only_data.isEmpty = true))))
    ∧ (∀ st', update_global_ts_ref st inp = some (false, st') →
        st' = st ∨
          (st.selected_signals_data.isEmpty = true ∧
            st.selected_di_only_data.isEmpty = true ∧
            st' = { st with global_ts_ref := inp })) := by
  cases inp with
  | none =>
    refine ⟨⟨fun _ => Or.inl rfl, fun _ => ⟨st, rfl⟩⟩, fun st' h => ?_⟩
    simp only [update_global_ts_ref, Option.some.injEq, Prod.mk.injEq, true_and] at h
    exact Or.inl h.symm
  | some v =>
    by_cases h1 : st.global_ts_ref = some v
    · have heq : update_global_ts_ref st (some v) = some (false, st) := by
        simp [update_global_ts_ref, h1]
      refine ⟨⟨fun _ => Or.inr ⟨v, rfl, Or.inl h1⟩, fun _ => ⟨st, heq⟩⟩, fun st' h => ?_⟩
      rw [heq] at h
      simp only [Option.some.injEq, Prod.mk.injEq, true_and] at h
      exact Or.inl h.symm
    · cases hm : is_mat_loaded st with
      | false =>
        have heq : update_global_ts_ref st (some v) = some (false, st) := by
          simp [update_global_ts_ref, h1, hm]
        refine ⟨⟨fun _ => Or.inr ⟨v, rfl, Or.inr (Or.inl rfl)⟩, fun _ => ⟨st, heq⟩⟩,
          fun st' h => ?_⟩
        rw [heq] at h
        simp only [Option.some.injEq, Prod.mk.injEq, true_and] at h
        exact Or.inl h.symm
      | true =>
        by_cases h3 : st.selected_signals_data.isEmpty = true ∧
            st.selected_di_only_data.isEmpty = true
        · have heq : update_global_ts_ref st (some v) =
              some (false, { st with global_ts_ref := some v }) := by
            simp [update_global_ts_ref, h1, hm, h3.1, h3.2]
          refine ⟨⟨fun _ => Or.inr ⟨v, rfl, Or.inr (Or.inr h3)⟩, fun _ => ⟨_, heq⟩⟩,
            fun st' h => ?_⟩
          rw [heq] at h
          simp only [Option.some.injEq, Prod.mk.injEq, true_and] at h
          exact Or.inr ⟨h3.1, h3.2, h.symm⟩
        · have hfalse : ∀ st', update_global_ts_ref st (some v) ≠ some (false, st') := by
            intro st' h
            simp only [update_global_ts_ref, h1, if_neg h1, hm, Bool.not_true,
              Bool.false_eq_true, if_false] at h
            rw [if_neg (fun hc => h3 (by simpa [Bool.and_eq_true] using hc))] at h
            cases hr1 : recomputeStore v st.selected_signals_data with
            | none => rw [hr1] at h; simp at h
            | some s1 =>
              rw [hr1] at h
              cases hr2 : recomputeStore v st.selected_di_only_data with
              | none => rw [hr2] at h; simp at h
              | some s2 => rw [hr2] at h; simp at h
          refine ⟨⟨fun hex => ?_, fun hrhs => ?_⟩, fun st' h => absurd h (hfalse st')⟩
          · obtain ⟨st', hst'⟩ := hex
            exact absurd hst' (hfalse st')
          · rcases hrhs with hc | ⟨v', hv, hd⟩
            · exact absurd hc (by simp)
            · injection hv with hv
              subst hv
              rcases hd with hd | hd | hd
              · exact absurd hd h1
              · exact absurd hd (by simp)
              · exact absurd hd h3

/-- Witness for C3 (amended) at `emptySelVM`: both stores empty, so the
`False` return carries the *updated* reference. -/
theorem update_global_ts_ref_false_iff_witness :
    ({ emptySelVM with global_ts_ref := some 5 } : VMState) = emptySelVM ∨
      (emptySelVM.selected_signals_data.isEmpty = true ∧
        emptySelVM.selected_di_only_data.isEmpty = true ∧
        ({ emptySelVM with global_ts_ref := some 5 } : VMState) =
          { emptySelVM with global_ts_ref := some 5 }) :=
  (update_global_ts_ref_false_iff emptySelVM (some 5)).2 _ rfl

theorem amem_append {α : Type} (l1 l2 : List (String × α)) (k : String) :
    amem (l1 ++ l2) k = (amem l1 k || amem l2 k) := by
  induction l1 with
  | nil => simp [amem]
  | cons hd t ih =>
    by_cases hk : hd.1 = k
    · simp [amem, hk]
    · simp only [amem, List.cons_append, aget_cons, hk, if_false]
      simpa [amem] using ih

/-! ### C10 -/

theorem parse_conf_foldl (sep ssep : Char) (lines : List String)
    (a b : List (List String)) :
    lines.foldl (parseConfStep sep ssep) (a, b) =
      (a ++ lines.filterMap (confRowPrimary sep ssep),
       b ++ lines.filterMap (confRowSecondary ssep)) := by
  induction lines generalizing a b with
  | nil => simp
  | cons l rest ih =>
    by_cases hblank : (pyStrip l = "" || pyStartsWith (pyStrip l) '#') = true
    · have hstep : parseConfStep sep ssep (a, b) l = (a, b) := by
        simp [parseConfStep, hblank]
      simp only [List.foldl_cons, hstep, ih, List.filterMap_cons]
      simp [confRowPrimary, confRowSecondary, hblank]
    · by_cases hsec : pyContains (pyStrip l) ssep = true
      · have hstep : parseConfStep sep ssep (a, b) l =
            (a, b ++ [tokenize (pyStrip l) ssep]) := by
          simp [parseConfStep, hblank, hsec]
        simp only [List.foldl_cons, hstep, ih, List.filterMap_cons]
        simp [confRowPrimary, confRowSecondary, hblank, hsec]
      · have hstep : parseConfStep sep ssep (a, b) l =
            (a ++ [tokenize (pyStrip l) sep], b) := by
          simp [parseConfStep, hblank, hsec]
        simp only [List.foldl_cons, hstep, ih, List.filterMap_cons]
        simp [confRowPrimary, confRowSecondary, hblank, hsec]

/-- C10: `parse_conf` returns two empty lists for any non-`.conf` path;
otherwise it routes, in line order, every stripped non-blank non-comment
line containing the secondary delimiter (tokenized on it) to the secondary
groups and every other such line (tokenized on the primary delimiter) to the
primary groups; and on the spec's Scenario C content it produces
`([["Radar","Range"]], [["Lidar","Distance"]])`. -/
theorem parse_conf_routes_lines :
    (∀ (suffix : String) (lines : List String) (sep ssep : Char), suffix ≠ ".conf" →
      parse_conf suffix lines sep ssep = ([], []))
    ∧ (∀ (lines : List String) (sep ssep : Char),
      parse_conf ".conf" lines sep ssep =
        (lines.filterMap (confRowPrimary sep ssep), lines.filterMap (confRowSecondary ssep)))
    ∧ parse_conf ".conf" ["Radar;Range", "# comment", "Lidar/Distance"] ';' '/' =
        ([["Radar", "Range"]], [["Lidar", "Distance"]]) := by
  refine ⟨fun suffix lines sep ssep h => by simp [parse_conf, h], fun lines sep ssep => ?_, rfl⟩
  simp [parse_conf, parse_conf_foldl]

/-- Witness for C10: the non-`.conf` hypothesis at a concrete path. -/
theorem parse_conf_routes_lines_witness :
    parse_conf ".txt" ["Radar;Range"] ';' '/' = ([], []) :=
  parse_conf_routes_lines.1 ".txt" ["Radar;Range"] ';' '/' (by decide)

/-! ### C7 -/

/-- C7: `parse_and_load_conf` iterates over the *pair* returned by
`parse_conf`, handing each whole bucket (a list of token lists) to
`is_signal_already_selected` / `select_item`; for every file content it
either returns with the state — in particular the plotting selection store —
completely unchanged (both buckets shorter than 2, each select rejected by
the length guard) or raises a `TypeError` on the unhashable list key before
any store access (some bucket of length ≥ 2). -/
theorem parse_and_load_conf_never_selects (st : VMState) (suffix : String)
    (lines : List String) :
    (parse_and_load_conf st suffix lines = some st
      ∧ (parse_conf suffix lines ';' '/').1.length < 2
      ∧ (parse_conf suffix lines ';' '/').2.length < 2)
    ∨ (parse_and_load_conf st suffix lines = none
      ∧ (2 ≤ (parse_conf suffix lines ';' '/').1.length ∨
          2 ≤ (parse_conf suffix lines ';' '/').2.length)) := by
  by_cases h1 : (parse_conf suffix lines ';' '/').1.length < 2
  · by_cases h2 : (parse_conf suffix lines ';' '/').2.length < 2
    · exact Or.inl ⟨by
        simp [parse_and_load_conf, conf_step, is_signal_already_selected_conf,
          select_item_conf, h1, h2], h1, h2⟩
    · exact Or.inr ⟨by
        simp [parse_and_load_conf, conf_step, is_signal_already_selected_conf,
          select_item_conf, h1, h2], Or.inr (by omega)⟩
  · exact Or.inr ⟨by
      simp [parse_and_load_conf, conf_step, is_signal_already_selected_conf,
        select_item_conf, h1], Or.inl (by omega)⟩

/-! ### C9 amended -/

theorem importGo_spec (l : List (String × CandOutcome)) (acc : List (String × PyData))
    (hsized : ∀ c ∈ l, sizedOutcome c.2 = true)
    (hfresh : ∀ c ∈ l, amem acc c.1 = false)
    (hnodup : (l.map Prod.fst).Nodup) :
    importGo acc l = some (acc ++ l.filterMap expectedGoEntry) := by
  induction l generalizing acc with
  | nil => simp [importGo]
  | cons c rest ih =>
    obtain ⟨name, oc⟩ := c
    have hs : sizedOutcome oc = true := hsized _ (List.mem_cons_self _ _)
    have hstail : ∀ c ∈ rest, sizedOutcome c.2 = true :=
      fun c hc => hsized c (List.mem_cons_of_mem _ hc)
    have hntail : (rest.map Prod.fst).Nodup := (List.nodup_cons.mp hnodup).2
    have hname : name ∉ rest.map Prod.fst := (List.nodup_cons.mp hnodup).1
    cases oc with
    | raises =>
      rw [show importGo acc ((name, .raises) :: rest) = importGo acc rest from rfl]
      rw [ih acc hstail (fun c hc => hfresh c (List.mem_cons_of_mem _ hc)) hntail]
      rfl
    | returns rv =>
      cases rv with
      | malformed =>
        rw [show importGo acc ((name, .returns .malformed) :: rest) = importGo acc rest from rfl]
        rw [ih acc hstail (fun c hc => hfresh c (List.mem_cons_of_mem _ hc)) hntail]
        rfl
      | tup2 x y =>
        cases hax : asSized x with
        | none => simp [sizedOutcome, hax] at hs
        | some xs =>
          by_cases hxe : xs.isEmpty
          · have hgo : importGo acc ((name, .returns (.tup2 x y)) :: rest) =
                importGo acc rest := by
              simp [importGo, hax, hxe]
            rw [hgo, ih acc hstail (fun c hc => hfresh c (List.mem_cons_of_mem _ hc)) hntail]
            simp [expectedGoEntry, hax, hxe]
          · cases hay : asSized y with
            | none => simp [sizedOutcome, hax, hxe, hay] at hs
            | some ys =>
              by_cases hye : ys.isEmpty
              · have hgo : importGo acc ((name, .returns (.tup2 x y)) :: rest) =
                    importGo acc rest := by
                  simp [importGo, hax, hxe, hay, hye]
                rw [hgo, ih acc hstail (fun c hc => hfresh c (List.mem_cons_of_mem _ hc)) hntail]
                simp [expectedGoEntry, hax, hxe, hay, hye]
              · have hacc : amem acc name = false := hfresh _ (List.mem_cons_self _ _)
                have hgo : importGo acc ((name, .returns (.tup2 x y)) :: rest) =
                    importGo (aset acc name (.dict [("x", .arr xs), ("y", .arr ys)])) rest := by
                  simp [importGo, hax, hxe, hay, hye]
                rw [hgo, aset_eq_append acc name _ hacc]
                have hfresh' : ∀ c ∈ rest,
                    amem (acc ++ [(name, PyData.dict [("x", .arr xs), ("y", .arr ys)])]) c.1
                      = false := by
                  intro c hc
                  have h1 : amem acc c.1 = false := hfresh c (List.mem_cons_of_mem _ hc)
                  have h2 : name ≠ c.1 := by
                    intro hcontra
                    exact hname (hcontra ▸ List.mem_map_of_mem Prod.fst hc)
                  rw [amem_append, h1]
                  simp [amem, h2]
                rw [ih _ hstail hfresh' hntail]
                simp [expectedGoEntry, hax, hxe, hay, hye]

/-- C9 (amended): every candidate is invoked on a deep copy of the same
pristine dataset (the dataset is never mutated — value semantics of the
copy); a candidate that raises or returns a non-2-tuple is skipped without
aborting the batch, a 2-tuple with an empty (coerced) component is
discarded, and all remaining candidates' results appear in the returned
mapping with scalar components coerced to one-element arrays — provided no
candidate returns a 2-tuple component that is neither a number nor a sized
sequence (such a component makes `len()` raise and aborts the whole call,
see the counterexample). -/
theorem import_custom_data_points_isolates (data : List (String × PyData))
    (cands : List (String × (List (String × PyData) → CandOutcome)))
    (hsized : ∀ c ∈ cands, sizedOutcome (c.2 data) = true)
    (hnodup : (cands.map Prod.fst).Nodup) :
    import_custom_data_points data cands =
      some (cands.filterMap (fun c => expectedGoEntry (c.1, c.2 data))) := by
  unfold import_custom_data_points
  rw [importGo_spec]
  · rw [List.filterMap_map]
    rfl
  · intro c hc
    obtain ⟨c0, hc0, rfl⟩ := List.mem_map.mp hc
    exact hsized c0 hc0
  · intro c _
    rfl
  · simpa [List.map_map, Function.comp] using hnodup

/-- Witness for C9 (amended): a raiser, a malformed return, an
empty-sequence return and a good scalar-pair candidate — only the good one
lands in the mapping, coerced. -/
theorem import_custom_data_points_isolates_witness :
    import_custom_data_points []
      [("f", fun _ => CandOutcome.raises),
       ("g", fun _ => CandOutcome.returns (.tup2 (.num 1) (.num 2))),
       ("h", fun _ => CandOutcome.returns .malformed),
       ("i", fun _ => CandOutcome.returns (.tup2 (.seqv []) .unsized))] =
      some [("g", .dict [("x", .arr [1]), ("y", .arr [2])])] :=
  import_custom_data_points_isolates [] _
    (by intro c hc; fin_cases hc <;> rfl)
    (by decide)

/-! ### C1 amended -/

theorem recomputeChildren_spec (v : ℤ) (l l' : List (String × PyData))
    (h : recomputeChildren v l = some l') :
    ∀ c ∈ l', ∃ d, c.2 = PyData.dict d ∧ ∃ xs, aget d "ts_raw" = some (.arr xs) ∧
      aget d "ts" = some (.arr (xs.map (fun x => x - v))) := by
  induction l generalizing l' with
  | nil =>
    simp only [recomputeChildren, Option.some.injEq] at h
    subst h
    simp
  | cons c rest ih =>
    simp only [recomputeChildren] at h
    cases hc : recomputeChild v c with
    | none => rw [hc] at h; simp at h
    | some c' =>
      rw [hc] at h
      cases hr : recomputeChildren v rest with
      | none => rw [hr] at h; simp at h
      | some rest' =>
        rw [hr] at h
        simp only [Option.map_some', Option.some.injEq] at h
        subst h
        intro e he
        rcases List.mem_cons.mp he with he | he
        · subst he
          obtain ⟨k, cv⟩ := c
          cases cv with
          | arr a => simp [recomputeChild] at hc
          | pynone => simp [recomputeChild] at hc
          | dict d0 =>
            simp only [recomputeChild] at hc
            cases hag : aget d0 "ts_raw" with
            | none => rw [hag] at hc; simp at hc
            | some w =>
              rw [hag] at hc
              cases w with
              | dict d1 => simp at hc
              | pynone => simp at hc
              | arr xs =>
                simp only [Option.some.injEq] at hc
                subst hc
                refine ⟨aset d0 "ts" (.arr (xs.map (fun x => x - v))), rfl, xs, ?_, ?_⟩
                · rw [aget_aset_ne d0 "ts" "ts_raw" _ (by decide)]
                  exact hag
                · exact aget_aset_self d0 "ts" _
        · exact ih rest' hr e he

theorem recomputeEntry_spec (v : ℤ) (e e' : PyData) (h : recomputeEntry v e = some e') :
    entryRecomputed v e' := by
  cases e with
  | arr a => simp [recomputeEntry] at h
  | pynone => simp [recomputeEntry] at h
  | dict l =>
    cases l with
    | nil =>
      simp only [recomputeEntry, Option.some.injEq] at h
      subst h
      trivial
    | cons kv0 rest =>
      by_cases hd : isDict kv0.2 = true
      · simp only [recomputeEntry, hd, if_pos] at h
        cases hr : recomputeChildren v (kv0 :: rest) with
        | none => rw [hr] at h; simp at h
        | some l' =>
          rw [hr] at h
          simp only [Option.map_some', Option.some.injEq] at h
          subst h
          have hspec := recomputeChildren_spec v (kv0 :: rest) l' hr
          -- l' is a cons whose head value is a dict
          have hshape : ∃ c' rest', l' = c' :: rest' := by
            simp only [recomputeChildren] at hr
            cases hc : recomputeChild v kv0 with
            | none => rw [hc] at hr; simp at hr
            | some c' =>
              rw [hc] at hr
              cases hr2 : recomputeChildren v rest with
              | none => rw [hr2] at hr; simp at hr
              | some rest' =>
                rw [hr2] at hr
                simp only [Option.map_some', Option.some.injEq] at hr
                exact ⟨c', rest', hr.symm⟩
          obtain ⟨c', rest', rfl⟩ := hshape
          obtain ⟨d, hcd, -⟩ := hspec c' (List.mem_cons_self _ _)
          show entryRecomputed v (.dict (c' :: rest'))
          simp only [entryRecomputed, hcd, isDict, if_pos]
          exact fun c hc => hspec c hc
      · simp only [recomputeEntry, hd, if_neg, Bool.false_eq_true, if_false] at h
        by_cases hts : amem (kv0 :: rest) "ts_raw" = true
        · rw [if_pos hts] at h
          cases hag : aget (kv0 :: rest) "ts_raw" with
          | none => rw [hag] at h; simp at h
          | some w =>
            rw [hag] at h
            cases w with
            | dict d1 => simp at h
            | pynone => simp at h
            | arr xs =>
              simp only [Option.some.injEq] at h
              subst h
              -- the updated entry is still headed by a non-dict value
              by_cases hk : kv0.1 = "ts"
              · show entryRecomputed v (.dict (aset (kv0 :: rest) "ts" _))
                rw [aset_cons, if_pos hk]
                simp only [entryRecomputed, isDict, Bool.false_eq_true, if_false]
                intro _
                refine ⟨xs, ?_, ?_⟩
                · have := aget_aset_ne (kv0 :: rest) "ts" "ts_raw" (PyData.arr (xs.map (fun x => x - v))) (by decide)
                  rw [aset_cons, if_pos hk] at this
                  rw [this]
                  exact hag
                · have := aget_aset_self (kv0 :: rest) "ts" (PyData.arr (xs.map (fun x => x - v)))
                  rw [aset_cons, if_pos hk] at this
                  exact this
              · show entryRecomputed v (.dict (aset (kv0 :: rest) "ts" _))
                rw [aset_cons, if_neg hk]
                simp only [entryRecomputed, hd, Bool.false_eq_true, if_false]
                intro _
                refine ⟨xs, ?_, ?_⟩
                · have := aget_aset_ne (kv0 :: rest) "ts" "ts_raw" (PyData.arr (xs.map (fun x => x - v))) (by decide)
                  rw [aset_cons, if_neg hk] at this
                  rw [this]
                  exact hag
                · have := aget_aset_self (kv0 :: rest) "ts" (PyData.arr (xs.map (fun x => x - v)))
                  rw [aset_cons, if_neg hk] at this
                  exact this
        · rw [if_neg hts] at h
          simp only [Option.some.injEq] at h
          subst h
          simp only [entryRecomputed, hd, Bool.false_eq_true, if_false]
          intro habs
          exact absurd habs hts

theorem recomputeStore_spec (v : ℤ) (s s' : List (String × PyData))
    (h : recomputeStore v s = some s') :
    ∀ kv ∈ s', entryRecomputed v kv.2 := by
  induction s generalizing s' with
  | nil =>
    simp only [recomputeStore, Option.some.injEq] at h
    subst h
    simp
  | cons kv rest ih =>
    obtain ⟨k, e⟩ := kv
    simp only [recomputeStore] at h
    cases he : recomputeEntry v e with
    | none => rw [he] at h; simp at h
    | some e' =>
      rw [he] at h
      cases hr : recomputeStore v rest with
      | none => rw [hr] at h; simp at h
      | some rest' =>
        rw [hr] at h
        simp only [Option.map_some', Option.some.injEq] at h
        subst h
        intro c hc
        rcases List.mem_cons.mp hc with hc | hc
        · subst hc
          exact recomputeEntry_spec v e e' he
        · exact ih rest' hr c hc

/-- C1 (amended): whenever `update_global_ts_ref(v)` returns `True`, the
reference equals `v` and every entry in both selection stores satisfies the
recompute shape the loop actually establishes: entries whose *first* value
is a nested mapping have every child's nested `ts` equal to
`ts_raw - v` element-wise (each such child visited exactly once by the
single recompute pass), and entries whose first value is not a mapping have
their top-level `ts` equal to `ts_raw - v` whenever `ts_raw` is present.
Nested custom children that share an entry with plain children (so the
first value is an array) are *not* recomputed — see the counterexample. -/
theorem update_global_ts_ref_recomputes (st : VMState) (v : ℤ) (st' : VMState)
    (h : update_global_ts_ref st (some v) = some (true, st')) :
    st'.global_ts_ref = some v
    ∧ (∀ kv ∈ st'.selected_signals_data, entryRecomputed v kv.2)
    ∧ (∀ kv ∈ st'.selected_di_only_data, entryRecomputed v kv.2) := by
  simp only [update_global_ts_ref] at h
  by_cases h1 : st.global_ts_ref = some v
  · rw [if_pos h1] at h
    simp at h
  · rw [if_neg h1] at h
    cases hm : is_mat_loaded st with
    | false => rw [hm] at h; simp at h
    | true =>
      rw [hm] at h
      simp only [Bool.not_true, Bool.false_eq_true, if_false] at h
      by_cases he : (st.selected_signals_data.isEmpty && st.selected_di_only_data.isEmpty) = true
      · rw [if_pos he] at h
        simp at h
      · rw [if_neg he] at h
        cases hr1 : recomputeStore v st.selected_signals_data with
        | none => rw [hr1] at h; simp at h
        | some s1 =>
          rw [hr1] at h
          cases hr2 : recomputeStore v st.selected_di_only_data with
          | none => rw [hr2] at h; simp at h
          | some s2 =>
            rw [hr2] at h
            simp only [Option.some.injEq, Prod.mk.injEq, true_and] at h
            subst h
            exact ⟨rfl, recomputeStore_spec v _ s1 hr1, recomputeStore_spec v _ s2 hr2⟩

/-- Witness for C1 (amended) at `recompVM`: one plain entry in the plotting
store, one custom entry in the insight store, updated to reference 5. -/
theorem update_global_ts_ref_recomputes_witness :
    recompVM'.global_ts_ref = some 5
    ∧ (∀ kv ∈ recompVM'.selected_signals_data, entryRecomputed 5 kv.2)
    ∧ (∀ kv ∈ recompVM'.selected_di_only_data, entryRecomputed 5 kv.2) :=
  update_global_ts_ref_recomputes recompVM 5 recompVM' rfl

/-! ### C8 amended : sorting lemmas -/

theorem charsLE_total (a : List Char) : ∀ b, charsLE a b = true ∨ charsLE b a = true := by
  induction a with
  | nil => intro b; exact Or.inl rfl
  | cons x xs ih =>
    intro b
    cases b with
    | nil => exact Or.inr rfl
    | cons y ys =>
      by_cases h1 : x.toNat < y.toNat
      · left; simp [charsLE, h1]
      · by_cases h2 : y.toNat < x.toNat
        · right; simp [charsLE, h1, h2]
        · rcases ih ys with h | h
          · left; simp [charsLE, h1, h2, h]
          · right; simp [charsLE, h1, h2, h]

theorem ciLE_total (a b : String) : ciLE a b = true ∨ ciLE b a = true :=
  charsLE_total (a.data.map charLower) (b.data.map charLower)

theorem mem_insertCI {α : Type} (a : String × α) (l : List (String × α)) :
    ∀ x ∈ insertCI a l, x = a ∨ x ∈ l := by
  induction l with
  | nil => simp [insertCI]
  | cons y ys ih =>
    intro x hx
    by_cases hle : ciLE a.1 y.1 = true
    · rw [insertCI, if_pos hle] at hx
      rcases List.mem_cons.mp hx with hx | hx
      · exact Or.inl hx
      · exact Or.inr hx
    · rw [insertCI, if_neg hle] at hx
      rcases List.mem_cons.mp hx with hx | hx
      · exact Or.inr (hx ▸ List.mem_cons_self y ys)
      · rcases ih x hx with hx | hx
        · exact Or.inl hx
        · exact Or.inr (List.mem_cons_of_mem _ hx)

theorem mem_sortCI {α : Type} (l : List (String × α)) :
    ∀ x ∈ sortCI l, x ∈ l := by
  induction l with
  | nil => simp [sortCI]
  | cons y ys ih =>
    intro x hx
    rcases mem_insertCI y (sortCI ys) x hx with hx | hx
    · exact hx ▸ List.mem_cons_self y ys
    · exact List.mem_cons_of_mem _ (ih x hx)

theorem chainCI_insertCI {α : Type} (a : String × α) (l : List (String × α))
    (h : chainCI (l.map Prod.fst) = true) :
    chainCI ((insertCI a l).map Prod.fst) = true := by
  induction l with
  | nil => simp [insertCI, chainCI]
  | cons y ys ih =>
    by_cases hle : ciLE a.1 y.1 = true
    · rw [insertCI, if_pos hle]
      show chainCI (a.1 :: y.1 :: ys.map Prod.fst) = true
      show (ciLE a.1 y.1 && chainCI (y.1 :: ys.map Prod.fst)) = true
      rw [hle, Bool.true_and]
      exact h
    · have htot : ciLE y.1 a.1 = true := by
        rcases ciLE_total a.1 y.1 with h' | h'
        · exact absurd h' hle
        · exact h'
      rw [insertCI, if_neg hle]
      cases ys with
      | nil =>
        show (ciLE y.1 a.1 && chainCI [a.1]) = true
        rw [htot]
        rfl
      | cons z zs =>
        have hsplit : (ciLE y.1 z.1 && chainCI (z.1 :: zs.map Prod.fst)) = true := h
        obtain ⟨hyz, htail⟩ := Bool.and_eq_true_iff.mp hsplit
        have ihz : chainCI ((insertCI a (z :: zs)).map Prod.fst) = true := ih htail
        by_cases hz : ciLE a.1 z.1 = true
        · rw [insertCI, if_pos hz] at ihz ⊢
          show (ciLE y.1 a.1 && chainCI (a.1 :: z.1 :: zs.map Prod.fst)) = true
          rw [htot, Bool.true_and]
          exact ihz
        · rw [insertCI, if_neg hz] at ihz ⊢
          show (ciLE y.1 z.1 && chainCI (z.1 :: (insertCI a zs).map Prod.fst)) = true
          rw [hyz, Bool.true_and]
          exact ihz

theorem chainCI_sortCI {α : Type} (l : List (String × α)) :
    chainCI ((sortCI l).map Prod.fst) = true := by
  induction l with
  | nil => rfl
  | cons y ys ih => exact chainCI_insertCI y (sortCI ys) ih

theorem nodesSorted_iff (l : List (String × PyData)) :
    nodesSorted l = true ↔ ∀ kv ∈ l, nodeSorted kv.2 = true := by
  induction l with
  | nil => simp [nodesSorted]
  | cons kv r ih =>
    rw [show nodesSorted (kv :: r) = (nodeSorted kv.2 && nodesSorted r) from rfl]
    rw [Bool.and_eq_true, ih, List.forall_mem_cons]

theorem noReservedEntries_iff (l : List (String × PyData)) :
    noReservedEntries l = true ↔
      ∀ kv ∈ l, reservedKeys.contains kv.1 = false ∧ noReservedNode kv.2 = true := by
  induction l with
  | nil => simp [noReservedEntries]
  | cons kv r ih =>
    obtain ⟨k, v⟩ := kv
    rw [show noReservedEntries ((k, v) :: r) =
        (!reservedKeys.contains k && noReservedNode v && noReservedEntries r) from rfl]
    rw [Bool.and_eq_true, Bool.and_eq_true, ih, List.forall_mem_cons]
    simp [Bool.not_eq_true']

theorem matNoReservedList_iff (l : List (String × MatObj)) :
    matNoReservedList l = true ↔
      ∀ kv ∈ l, reservedKeys.contains kv.1 = false ∧ matNoReservedFields kv.2 = true := by
  induction l with
  | nil => simp [matNoReservedList]
  | cons kv r ih =>
    obtain ⟨k, v⟩ := kv
    rw [show matNoReservedList ((k, v) :: r) =
        (!reservedKeys.contains k && matNoReservedFields v && matNoReservedList r) from rfl]
    rw [Bool.and_eq_true, Bool.and_eq_true, ih, List.forall_mem_cons]
    simp [Bool.not_eq_true']

mutual

theorem nodeSorted_todict (o : MatObj) : nodeSorted (todict o) = true := by
  cases o with
  | leaf v => rfl
  | strct fs =>
    show (chainCI ((sortCI (todictFields fs)).map Prod.fst) &&
      nodesSorted (sortCI (todictFields fs))) = true
    rw [chainCI_sortCI, Bool.true_and, nodesSorted_iff]
    exact fun kv hkv => nodeSorted_todictFields fs kv (mem_sortCI _ kv hkv)

theorem nodeSorted_todictFields (fs : List (String × MatObj)) :
    ∀ kv ∈ todictFields fs, nodeSorted kv.2 = true := by
  cases fs with
  | nil => simp [todictFields]
  | cons kv r =>
    obtain ⟨k, v⟩ := kv
    intro c hc
    rcases List.mem_cons.mp hc with hc | hc
    · rw [hc]
      exact nodeSorted_todict v
    · exact nodeSorted_todictFields r c hc

end

mutual

theorem noReservedNode_todict (o : MatObj) (h : matNoReservedFields o = true) :
    noReservedNode (todict o) = true := by
  cases o with
  | leaf v => rfl
  | strct fs =>
    show noReservedEntries (sortCI (todictFields fs)) = true
    rw [noReservedEntries_iff]
    exact fun kv hkv => noReserved_todictFields fs h kv (mem_sortCI _ kv hkv)

theorem noReserved_todictFields (fs : List (String × MatObj))
    (h : matNoReservedList fs = true) :
    ∀ kv ∈ todictFields fs,
      reservedKeys.contains kv.1 = false ∧ noReservedNode kv.2 = true := by
  cases fs with
  | nil => simp [todictFields]
  | cons kv r =>
    obtain ⟨k, v⟩ := kv
    rw [show matNoReservedList ((k, v) :: r) =
        (!reservedKeys.contains k && matNoReservedFields v && matNoReservedList r) from rfl] at h
    rw [Bool.and_eq_true, Bool.and_eq_true] at h
    obtain ⟨⟨hk, hv⟩, hr⟩ := h
    intro c hc
    rcases List.mem_cons.mp hc with hc | hc
    · rw [hc]
      exact ⟨by simpa using hk, noReservedNode_todict v hv⟩
    · exact noReserved_todictFields r hr c hc

end

theorem adel_eq_filter {α : Type} (l : List (String × α)) (k : String)
    (h : (l.map Prod.fst).Nodup) : adel l k = l.filter (fun kv => !(kv.1 == k)) := by
  induction l with
  | nil => rfl
  | cons hd t ih =>
    rw [List.map_cons] at h
    obtain ⟨hhd, ht⟩ := List.nodup_cons.mp h
    by_cases hk : hd.1 = k
    · rw [adel_cons, if_pos hk, List.filter_cons]
      simp only [hk, beq_self_eq_true, Bool.not_true, Bool.false_eq_true, if_false]
      refine (List.filter_eq_self.mpr fun kv hkv => ?_).symm
      have : kv.1 ≠ k := by
        intro hc
        exact hhd (by rw [hk, ← hc]; exact List.mem_map_of_mem Prod.fst hkv)
      simp [this]
    · rw [adel_cons, if_neg hk, List.filter_cons]
      simp only [show (hd.1 == k) = false from beq_eq_false_iff_ne.mpr hk, Bool.not_false,
        if_true]
      rw [ih ht]

theorem map_fst_filter_key {α : Type} (p : String → Bool) (l : List (String × α)) :
    (l.filter (fun kv => p kv.1)).map Prod.fst = (l.map Prod.fst).filter p := by
  induction l with
  | nil => rfl
  | cons hd t ih =>
    by_cases hp : p hd.1 = true <;> simp [List.filter_cons, hp, ih]

theorem foldl_adel_eq_filter {α : Type} (ks : List String) (l : List (String × α))
    (h : (l.map Prod.fst).Nodup) :
    ks.foldl adel l = l.filter (fun kv => !ks.contains kv.1) := by
  induction ks generalizing l with
  | nil => simp
  | cons k ks ih =>
    rw [List.foldl_cons]
    have hnd : ((adel l k).map Prod.fst).Nodup := by
      rw [adel_eq_filter l k h]
      exact ((List.filter_sublist _).map Prod.fst).nodup h
    rw [ih (adel l k) hnd, adel_eq_filter l k h, List.filter_filter]
    refine List.filter_congr fun kv _ => ?_
    by_cases hkk : kv.1 = k <;> by_cases hmem : kv.1 ∈ ks <;>
      simp [hkk, hmem, List.contains_cons]

/-- C8 (amended): `loadmat` exposes keys in case-insensitive lexical order at
every nesting level *below the top* (every converted struct), keeps the
loader's insertion order at the top level (only pruned of the reserved
metadata keys), and the result contains none of the reserved keys
`__header__`, `__version__`, `__globals__` — at the top because they are
popped, below under the external guarantee that MATLAB struct fieldnames
are never reserved names. -/
theorem loadmat_sorted_below_top (data : List (String × MatObj))
    (hnodup : (data.map Prod.fst).Nodup)
    (hfields : ∀ kv ∈ data, matNoReservedFields kv.2 = true) :
    (∀ kv ∈ loadmat data, nodeSorted kv.2 = true)
    ∧ (∀ kv ∈ loadmat data, noReservedNode kv.2 = true)
    ∧ (loadmat data).map Prod.fst =
        (data.map Prod.fst).filter (fun k => !reservedKeys.contains k)
    ∧ (∀ kv ∈ loadmat data, reservedKeys.contains kv.1 = false) := by
  have hfold : reservedKeys.foldl adel data =
      data.filter (fun kv => !reservedKeys.contains kv.1) :=
    foldl_adel_eq_filter reservedKeys data hnodup
  have hload : loadmat data =
      (data.filter (fun kv => !reservedKeys.contains kv.1)).map
        (fun kv => (kv.1, todict kv.2)) := by
    rw [loadmat, hfold]
  have hmemdata : ∀ kv ∈ loadmat data,
      ∃ v, (kv.1, v) ∈ data ∧ kv.2 = todict v ∧ reservedKeys.contains kv.1 = false := by
    intro kv hkv
    rw [hload] at hkv
    obtain ⟨⟨k0, v0⟩, hmem, heq⟩ := List.mem_map.mp hkv
    obtain ⟨hdata, hres⟩ := List.mem_filter.mp hmem
    cases heq
    exact ⟨v0, hdata, rfl, by simpa using hres⟩
  refine ⟨?_, ?_, ?_, ?_⟩
  · intro kv hkv
    obtain ⟨v, -, hv, -⟩ := hmemdata kv hkv
    rw [hv]
    exact nodeSorted_todict v
  · intro kv hkv
    obtain ⟨v, hmem, hv, -⟩ := hmemdata kv hkv
    rw [hv]
    exact noReservedNode_todict v (hfields _ hmem)
  · rw [hload, List.map_map]
    have : (Prod.fst ∘ fun kv : String × MatObj => (kv.1, todict kv.2)) = Prod.fst := by
      funext kv
      rfl
    rw [this, map_fst_filter_key (fun k => !reservedKeys.contains k) data]
  · intro kv hkv
    obtain ⟨-, -, -, hres⟩ := hmemdata kv hkv
    exact hres

/-- Witness for C8 (amended) on a two-group fixture with unsorted struct
fieldnames. -/
theorem loadmat_sorted_below_top_witness :
    (∀ kv ∈ loadmat [("b", .strct [("B", .leaf [1]), ("a", .leaf [2])]), ("a", .leaf [3])],
      nodeSorted kv.2 = true)
    ∧ (∀ kv ∈ loadmat [("b", .strct [("B", .leaf [1]), ("a", .leaf [2])]), ("a", .leaf [3])],
      noReservedNode kv.2 = true)
    ∧ (loadmat [("b", .strct [("B", .leaf [1]), ("a", .leaf [2])]), ("a", .leaf [3])]).map
        Prod.fst =
        (["b", "a"].filter (fun k => !reservedKeys.contains k))
    ∧ (∀ kv ∈ loadmat [("b", .strct [("B", .leaf [1]), ("a", .leaf [2])]), ("a", .leaf [3])],
      reservedKeys.contains kv.1 = false) :=
  loadmat_sorted_below_top
    [("b", .strct [("B", .leaf [1]), ("a", .leaf [2])]), ("a", .leaf [3])]
    (by decide) (by intro kv hkv; fin_cases hkv <;> rfl)

/-! ### C4 amended : invariant preservation -/

theorem PlainShaped_aset (e : List (String × PyData)) (k : String) (v : PyData)
    (h : PlainShaped e) : PlainShaped (aset e k v) :=
  ⟨amem_aset_of_amem e k "ts" v h.1, amem_aset_of_amem e k "ts_raw" v h.2⟩

theorem CustomShaped_aset (e : List (String × PyData)) (k : String) (v : PyData)
    (h : CustomShaped e) (hv : isDict v = true) : CustomShaped (aset e k v) := by
  intro kv hkv
  rcases mem_aset e k v kv hkv with hkv | hkv
  · rw [hkv]
    exact hv
  · exact h kv hkv

theorem PlainShaped_adel (e : List (String × PyData)) (k : String)
    (h1 : k ≠ "ts") (h2 : k ≠ "ts_raw") (h : PlainShaped e) : PlainShaped (adel e k) :=
  ⟨amem_adel_ne e k "ts" (Ne.symm h1) h.1, amem_adel_ne e k "ts_raw" (Ne.symm h2) h.2⟩

theorem CustomShaped_adel (e : List (String × PyData)) (k : String)
    (h : CustomShaped e) : CustomShaped (adel e k) :=
  fun kv hkv => h kv (mem_adel e k kv hkv)

theorem StoreOK_aset (s : List (String × PyData)) (k : String) (v : PyData)
    (hs : StoreOK s) (hv : EntryOK v) : StoreOK (aset s k v) := by
  intro kv hkv
  rcases mem_aset s k v kv hkv with hkv | hkv
  · rw [hkv]
    exact hv
  · exact hs kv hkv

theorem StoreOK_adel (s : List (String × PyData)) (k : String)
    (hs : StoreOK s) : StoreOK (adel s k) :=
  fun kv hkv => hs kv (mem_adel s k kv hkv)

theorem StoresOK_setStore (st : VMState) (sid : StoreId) (s : List (String × PyData))
    (hOK : StoresOK st) (hs : StoreOK s) : StoresOK (setStore st sid s) := by
  cases sid
  · exact ⟨hs, hOK.2⟩
  · exact ⟨hOK.1, hs⟩





theorem mem_of_aget {α : Type} (l : List (String × α)) (k : String) (v : α)
    (h : aget l k = some v) : (k, v) ∈ l := by
  induction l with
  | nil => simp at h
  | cons hd t ih =>
    by_cases hk : hd.1 = k
    · rw [aget_cons, if_pos hk] at h
      obtain rfl : hd.2 = v := by simpa using h
      have : hd = (k, hd.2) := by
        rw [← hk]
      rw [this]
      exact List.mem_cons_self _ _
    · rw [aget_cons, if_neg hk] at h
      exact List.mem_cons_of_mem _ (ih h)

theorem select_item_plain_preserves (st st' : VMState) (p : List String) (sid : StoreId)
    (b : Bool) (hOK : StoresOK st) (hguard : SelectPlainGuard st p sid)
    (hstore : StoreOK (getStore st sid))
    (td : List (String × PyData))
    (hres : resolvePrefix st.loaded_data p.dropLast = some (.dict td))
    (hemp : ¬ td.isEmpty = true)
    (hinv : ¬ invalid_signal p = true)
    (hplain : isDictOpt (aget td (childOf p)) = false)
    (h : select_item st p sid = some (b, st')) : StoresOK st' := by
  have hokE : ∀ (entry : List (String × PyData)) (w : PyData), PlainShaped entry →
      StoresOK (setStore st sid (aset (getStore st sid) (parentOf p)
        (.dict (aset entry (childOf p) w)))) := fun entry w hshape =>
    StoresOK_setStore st sid _ hOK
      (StoreOK_aset _ _ _ hstore ⟨_, rfl, Or.inl (PlainShaped_aset entry (childOf p) w hshape)⟩)
  have hokF : ∀ tsv tlvv w : PyData,
      StoresOK (setStore st sid (aset (getStore st sid) (parentOf p)
        (.dict (aset [("ts", tsv), ("ts_raw", tlvv)] (childOf p) w)))) := by
    intro tsv tlvv w
    refine StoresOK_setStore st sid _ hOK
      (StoreOK_aset _ _ _ hstore ⟨_, rfl, Or.inl ?_⟩)
    refine PlainShaped_aset _ (childOf p) _ ⟨?_, ?_⟩
    · rfl
    · rfl
  by_cases hTL : amem td "TimestampLogfile" = true
  · by_cases hmem : amem (getStore st sid) (parentOf p) = true
    · cases hentry : aget (getStore st sid) (parentOf p) with
      | none => simp [amem, hentry] at hmem
      | some ev =>
        cases ev with
        | arr a2 => simp [select_item, hinv, hres, hemp, hplain, hTL, hmem, hentry] at h
        | pynone => simp [select_item, hinv, hres, hemp, hplain, hTL, hmem, hentry] at h
        | dict entry =>
          have hshape : PlainShaped entry := hguard td hres entry hentry hplain
          simp only [select_item, hinv, hres, hemp, hplain, hTL, hmem, hentry,
            Bool.false_eq_true, if_false, if_true] at h
          split at h <;> simp only [Option.some.injEq, Prod.mk.injEq] at h <;>
            exact h.2 ▸ hokE entry _ hshape
    · cases htlv : aget td "TimestampLogfile" with
      | none => simp [amem, htlv] at hTL
      | some tlv =>
        cases tlv with
        | pynone => simp [select_item, hinv, hres, hemp, hplain, hTL, hmem, htlv] at h
        | arr tla =>
          cases hg : st.global_ts_ref with
          | none =>
            simp only [select_item, hinv, hres, hemp, hplain, hTL, hmem, htlv, hg,
              Bool.false_eq_true, if_false, if_true] at h
            split at h <;> simp only [Option.some.injEq, Prod.mk.injEq] at h <;>
              exact h.2 ▸ hokF _ _ _
          | some r =>
            by_cases hr : r = 0
            · simp only [select_item, hinv, hres, hemp, hplain, hTL, hmem, htlv, hg, hr,
                ne_eq, not_true_eq_false, Bool.false_eq_true, if_false, if_true] at h
              split at h <;> simp only [Option.some.injEq, Prod.mk.injEq] at h <;>
                exact h.2 ▸ hokF _ _ _
            · simp only [select_item, hinv, hres, hemp, hplain, hTL, hmem, htlv, hg, hr,
                pySub, ne_eq, not_false_eq_true, Bool.false_eq_true, if_false, if_true] at h
              split at h <;> simp only [Option.some.injEq, Prod.mk.injEq] at h <;>
                exact h.2 ▸ hokF _ _ _
        | dict tld =>
          cases hg : st.global_ts_ref with
          | none =>
            simp only [select_item, hinv, hres, hemp, hplain, hTL, hmem, htlv, hg,
              Bool.false_eq_true, if_false, if_true] at h
            split at h <;> simp only [Option.some.injEq, Prod.mk.injEq] at h <;>
              exact h.2 ▸ hokF _ _ _
          | some r =>
            by_cases hr : r = 0
            · simp only [select_item, hinv, hres, hemp, hplain, hTL, hmem, htlv, hg, hr,
                ne_eq, not_true_eq_false, Bool.false_eq_true, if_false, if_true] at h
              split at h <;> simp only [Option.some.injEq, Prod.mk.injEq] at h <;>
                exact h.2 ▸ hokF _ _ _
            · simp [select_item, hinv, hres, hemp, hplain, hTL, hmem, htlv, hg, hr,
                pySub] at h
  · simp only [select_item, hinv, hres, hemp, hplain, hTL, Bool.false_eq_true, if_false,
      if_true, Option.some.injEq, Prod.mk.injEq] at h
    exact h.2 ▸ hOK

theorem select_item_preserves_StoresOK (st st' : VMState) (p : List String) (sid : StoreId)
    (b : Bool) (hOK : StoresOK st) (hguard : SelectPlainGuard st p sid)
    (h : select_item st p sid = some (b, st')) : StoresOK st' := by
  have hstore : StoreOK (getStore st sid) := by
    cases sid
    · exact hOK.1
    · exact hOK.2
  by_cases hinv : invalid_signal p = true
  · simp only [select_item, hinv, if_true, Option.some.injEq, Prod.mk.injEq] at h
    exact h.2 ▸ hOK
  · cases hres : resolvePrefix st.loaded_data p.dropLast with
    | none => simp [select_item, hinv, hres] at h
    | some v =>
      cases v with
      | arr a => simp [select_item, hinv, hres] at h
      | pynone => simp [select_item, hinv, hres] at h
      | dict td =>
        by_cases hemp : td.isEmpty = true
        · simp only [select_item, hinv, hres, hemp, if_false, if_true, Bool.false_eq_true,
            Option.some.injEq, Prod.mk.injEq] at h
          exact h.2 ▸ hOK
        · by_cases hcustom : isDictOpt (aget td (childOf p)) = true
          · -- custom branch
            cases hchild : aget td (childOf p) with
            | none => rw [hchild] at hcustom; simp [isDictOpt] at hcustom
            | some cv =>
              cases cv with
              | arr ca => rw [hchild] at hcustom; simp [isDictOpt] at hcustom
              | pynone => rw [hchild] at hcustom; simp [isDictOpt] at hcustom
              | dict cd =>
                have hokC : ∀ (entry : List (String × PyData)) (w1 w2 w3 : PyData),
                    PlainShaped entry ∨ CustomShaped entry →
                    StoresOK (setStore st sid (aset (getStore st sid) (parentOf p)
                      (.dict (aset entry (childOf p)
                        (.dict [("ts", w1), ("ts_raw", w2), ("val", w3)]))))) := by
                  intro entry w1 w2 w3 hshape
                  refine StoresOK_setStore st sid _ hOK
                    (StoreOK_aset _ _ _ hstore ⟨_, rfl, ?_⟩)
                  rcases hshape with hs | hs
                  · exact Or.inl (PlainShaped_aset entry (childOf p) _ hs)
                  · exact Or.inr (CustomShaped_aset entry (childOf p) _ hs rfl)
                have hokD : ∀ w1 w2 w3 : PyData,
                    StoresOK (setStore st sid
                      (aset (aset (getStore st sid) (parentOf p) (.dict []))
                        (parentOf p)
                        (.dict (aset [] (childOf p)
                          (.dict [("ts", w1), ("ts_raw", w2), ("val", w3)]))))) := by
                  intro w1 w2 w3
                  refine StoresOK_setStore st sid _ hOK
                    (StoreOK_aset _ _ _
                      (StoreOK_aset _ _ _ hstore
                        ⟨[], rfl, Or.inr (fun kv hkv => by simp at hkv)⟩)
                      ⟨_, rfl, Or.inr ?_⟩)
                  intro kv hkv
                  simp only [aset_nil, List.mem_singleton] at hkv
                  rw [hkv]
                  rfl
                cases hx : aget cd "x" with
                | none => simp [select_item, hinv, hres, hemp, isDictOpt, hchild, hx] at h
                | some xv =>
                  cases xv with
                  | pynone => simp [select_item, hinv, hres, hemp, isDictOpt, hchild, hx] at h
                  | arr xa =>
                    by_cases hmem : amem (getStore st sid) (parentOf p) = true
                    · cases hentry : aget (getStore st sid) (parentOf p) with
                      | none => simp [amem, hentry] at hmem
                      | some ev =>
                        cases ev with
                        | arr a2 =>
                          cases hg : st.global_ts_ref with
                          | none =>
                            simp [select_item, hinv, hres, hemp, isDictOpt, hchild, hx, hg,
                              hmem, hentry] at h
                          | some r =>
                            by_cases hr : r = 0 <;>
                              simp [select_item, hinv, hres, hemp, isDictOpt, hchild, hx, hg,
                                hr, pySub, hmem, hentry] at h
                        | pynone =>
                          cases hg : st.global_ts_ref with
                          | none =>
                            simp [select_item, hinv, hres, hemp, isDictOpt, hchild, hx, hg,
                              hmem, hentry] at h
                          | some r =>
                            by_cases hr : r = 0 <;>
                              simp [select_item, hinv, hres, hemp, isDictOpt, hchild, hx, hg,
                                hr, pySub, hmem, hentry] at h
                        | dict entry =>
                          have hshape : PlainShaped entry ∨ CustomShaped entry := by
                            obtain ⟨e2, he2, hsh⟩ := hstore (parentOf p, .dict entry)
                              (mem_of_aget _ _ _ hentry)
                            obtain rfl : entry = e2 := by
                              cases he2
                              rfl
                            exact hsh
                          cases hg : st.global_ts_ref with
                          | none =>
                            simp only [select_item, hinv, hres, hemp, isDictOpt, hchild, hx, hg,
                              hmem, hentry, Bool.false_eq_true, if_false, if_true] at h
                            split at h <;>
                              simp only [Option.some.injEq, Prod.mk.injEq] at h <;>
                              exact h.2 ▸ hokC entry _ _ _ hshape
                          | some r =>
                            by_cases hr : r = 0
                            · simp only [select_item, hinv, hres, hemp, isDictOpt, hchild, hx,
                                hg, hr, ne_eq, not_true_eq_false, hmem, hentry,
                                Bool.false_eq_true, if_false, if_true] at h
                              split at h <;>
                                simp only [Option.some.injEq, Prod.mk.injEq] at h <;>
                                exact h.2 ▸ hokC entry _ _ _ hshape
                            · simp only [select_item, hinv, hres, hemp, isDictOpt, hchild, hx,
                                hg, hr, pySub, ne_eq, not_false_eq_true, hmem, hentry,
                                Bool.false_eq_true, if_false, if_true] at h
                              split at h <;>
                                simp only [Option.some.injEq, Prod.mk.injEq] at h <;>
                                exact h.2 ▸ hokC entry _ _ _ hshape
                    · have hent : aget (aset (getStore st sid) (parentOf p) (.dict []))
                          (parentOf p) = some (.dict []) := aget_aset_self _ _ _
                      cases hg : st.global_ts_ref with
                      | none =>
                        simp only [select_item, hinv, hres, hemp, isDictOpt, hchild, hx, hg,
                          hmem, hent, Bool.false_eq_true, if_false, if_true] at h
                        split at h <;> simp only [Option.some.injEq, Prod.mk.injEq] at h <;>
                          exact h.2 ▸ hokD _ _ _
                      | some r =>
                        by_cases hr : r = 0
                        · simp only [select_item, hinv, hres, hemp, isDictOpt, hchild, hx, hg,
                            hr, ne_eq, not_true_eq_false, hmem, hent, Bool.false_eq_true,
                            if_false, if_true] at h
                          split at h <;> simp only [Option.some.injEq, Prod.mk.injEq] at h <;>
                            exact h.2 ▸ hokD _ _ _
                        · simp only [select_item, hinv, hres, hemp, isDictOpt, hchild, hx, hg,
                            hr, pySub, ne_eq, not_false_eq_true, hmem, hent,
                            Bool.false_eq_true, if_false, if_true] at h
                          split at h <;> simp only [Option.some.injEq, Prod.mk.injEq] at h <;>
                            exact h.2 ▸ hokD _ _ _
                  | dict xd =>
                    by_cases hmem : amem (getStore st sid) (parentOf p) = true
                    · cases hentry : aget (getStore st sid) (parentOf p) with
                      | none => simp [amem, hentry] at hmem
                      | some ev =>
                        cases ev with
                        | arr a2 =>
                          cases hg : st.global_ts_ref with
                          | none =>
                            simp [select_item, hinv, hres, hemp, isDictOpt, hchild, hx, hg,
                              hmem, hentry] at h
                          | some r =>
                            by_cases hr : r = 0 <;>
                              simp [select_item, hinv, hres, hemp, isDictOpt, hchild, hx, hg,
                                hr, pySub, hmem, hentry] at h
                        | pynone =>
                          cases hg : st.global_ts_ref with
                          | none =>
                            simp [select_item, hinv, hres, hemp, isDictOpt, hchild, hx, hg,
                              hmem, hentry] at h
                          | some r =>
                            by_cases hr : r = 0 <;>
                              simp [select_item, hinv, hres, hemp, isDictOpt, hchild, hx, hg,
                                hr, pySub, hmem, hentry] at h
                        | dict entry =>
                          have hshape : PlainShaped entry ∨ CustomShaped entry := by
                            obtain ⟨e2, he2, hsh⟩ := hstore (parentOf p, .dict entry)
                              (mem_of_aget _ _ _ hentry)
                            obtain rfl : entry = e2 := by
                              cases he2
                              rfl
                            exact hsh
                          cases hg : st.global_ts_ref with
                          | none =>
                            simp only [select_item, hinv, hres, hemp, isDictOpt, hchild, hx, hg,
                              hmem, hentry, Bool.false_eq_true, if_false, if_true] at h
                            split at h <;>
                              simp only [Option.some.injEq, Prod.mk.injEq] at h <;>
                              exact h.2 ▸ hokC entry _ _ _ hshape
                          | some r =>
                            by_cases hr : r = 0
                            · simp only [select_item, hinv, hres, hemp, isDictOpt, hchild, hx,
                                hg, hr, ne_eq, not_true_eq_false, hmem, hentry,
                                Bool.false_eq_true, if_false, if_true] at h
                              split at h <;>
                                simp only [Option.some.injEq, Prod.mk.injEq] at h <;>
                                exact h.2 ▸ hokC entry _ _ _ hshape
                            · simp [select_item, hinv, hres, hemp, isDictOpt, hchild, hx,
                                hg, hr, pySub, hmem, hentry] at h
                    · have hent : aget (aset (getStore st sid) (parentOf p) (.dict []))
                          (parentOf p) = some (.dict []) := aget_aset_self _ _ _
                      cases hg : st.global_ts_ref with
                      | none =>
                        simp only [select_item, hinv, hres, hemp, isDictOpt, hchild, hx, hg,
                          hmem, hent, Bool.false_eq_true, if_false, if_true] at h
                        split at h <;> simp only [Option.some.injEq, Prod.mk.injEq] at h <;>
                          exact h.2 ▸ hokD _ _ _
                      | some r =>
                        by_cases hr : r = 0
                        · simp only [select_item, hinv, hres, hemp, isDictOpt, hchild, hx, hg,
                            hr, ne_eq, not_true_eq_false, hmem, hent, Bool.false_eq_true,
                            if_false, if_true] at h
                          split at h <;> simp only [Option.some.injEq, Prod.mk.injEq] at h <;>
                            exact h.2 ▸ hokD _ _ _
                        · simp [select_item, hinv, hres, hemp, isDictOpt, hchild, hx, hg,
                            hr, pySub, hmem, hent] at h
          · exact select_item_plain_preserves st st' p sid b hOK hguard hstore td hres hemp
              hinv (by simpa using hcustom) h

theorem deselect_item_preserves_StoresOK (st st' : VMState) (p : List String) (sid : StoreId)
    (b : Bool) (n : String) (hOK : StoresOK st) (hguard : DeselectGuard p)
    (h : deselect_item st p sid = some (b, n, st')) : StoresOK st' := by
  have hstore : StoreOK (getStore st sid) := by
    cases sid
    · exact hOK.1
    · exact hOK.2
  by_cases hinv : invalid_signal p = true
  · simp only [deselect_item, hinv, if_true, Option.some.injEq, Prod.mk.injEq] at h
    exact h.2.2 ▸ hOK
  · cases hag : aget (getStore st sid) (parentOf p) with
    | none => simp [deselect_item, hinv, hag] at h
    | some ev =>
      cases ev with
      | arr a => simp [deselect_item, hinv, hag] at h
      | pynone => simp [deselect_item, hinv, hag] at h
      | dict entry =>
        cases hcv : aget entry (childOf p) with
        | none => simp [deselect_item, hinv, hag, hcv] at h
        | some cv =>
          obtain ⟨e', he', hshape⟩ := hstore (parentOf p, .dict entry)
            (mem_of_aget _ _ _ hag)
          obtain rfl : entry = e' := by
            cases he'
            rfl
          have hdelOK : EntryOK (.dict (adel entry (childOf p))) := by
            refine ⟨_, rfl, ?_⟩
            rcases hshape with hs | hs
            · exact Or.inl (PlainShaped_adel entry (childOf p) hguard.1 hguard.2 hs)
            · exact Or.inr (CustomShaped_adel entry (childOf p) hs)
          by_cases hd : isDict cv = true
          · simp only [deselect_item, hinv, hag, hcv, hd, Bool.false_eq_true, if_false,
              if_true, Option.some.injEq, Prod.mk.injEq] at h
            exact h.2.2 ▸ StoresOK_setStore st sid _ hOK (StoreOK_aset _ _ _ hstore hdelOK)
          · by_cases hlen : entry.length ≤ 3
            · simp only [deselect_item, hinv, hag, hcv, hd, hlen, Bool.false_eq_true,
                if_false, if_true, Option.some.injEq, Prod.mk.injEq] at h
              exact h.2.2 ▸ StoresOK_setStore st sid _ hOK (StoreOK_adel _ _ hstore)
            · simp only [deselect_item, hinv, hag, hcv, hd, hlen, Bool.false_eq_true,
                if_false, if_true, Option.some.injEq, Prod.mk.injEq] at h
              exact h.2.2 ▸ StoresOK_setStore st sid _ hOK (StoreOK_aset _ _ _ hstore hdelOK)

theorem recomputeEntry_preserves_EntryOK (v : ℤ) (e e' : PyData)
    (hOK : EntryOK e) (h : recomputeEntry v e = some e') : EntryOK e' := by
  obtain ⟨l, rfl, hshape⟩ := hOK
  cases l with
  | nil =>
    simp only [recomputeEntry, Option.some.injEq] at h
    exact h ▸ ⟨[], rfl, Or.inr (fun kv hkv => by simp at hkv)⟩
  | cons kv0 rest =>
    by_cases hd : isDict kv0.2 = true
    · simp only [recomputeEntry, hd, if_pos] at h
      cases hr : recomputeChildren v (kv0 :: rest) with
      | none => rw [hr] at h; simp at h
      | some l' =>
        rw [hr] at h
        simp only [Option.map_some', Option.some.injEq] at h
        refine h ▸ ⟨l', rfl, Or.inr ?_⟩
        intro kv hkv
        obtain ⟨d, hcd, -⟩ := recomputeChildren_spec v (kv0 :: rest) l' hr kv hkv
        rw [hcd]
        rfl
    · simp only [recomputeEntry, hd, Bool.false_eq_true, if_false] at h
      by_cases hts : amem (kv0 :: rest) "ts_raw" = true
      · rw [if_pos hts] at h
        cases hag : aget (kv0 :: rest) "ts_raw" with
        | none => rw [hag] at h; simp at h
        | some w =>
          rw [hag] at h
          cases w with
          | dict d1 => simp at h
          | pynone => simp at h
          | arr xs =>
            simp only [Option.some.injEq] at h
            refine h ▸ ⟨_, rfl, ?_⟩
            rcases hshape with hs | hs
            · exact Or.inl (PlainShaped_aset _ "ts" _ hs)
            · exact absurd (hs kv0 (List.mem_cons_self _ _)) (by simpa using hd)
      · rw [if_neg hts] at h
        simp only [Option.some.injEq] at h
        exact h ▸ ⟨_, rfl, hshape⟩

theorem recomputeStore_preserves_StoreOK (v : ℤ) (s : List (String × PyData)) :
    ∀ s', StoreOK s → recomputeStore v s = some s' → StoreOK s' := by
  induction s with
  | nil =>
    intro s' _ h
    simp only [recomputeStore, Option.some.injEq] at h
    exact h ▸ (fun kv hkv => by simp at hkv)
  | cons kv rest ih =>
    intro s' hOK h
    obtain ⟨k, e⟩ := kv
    simp only [recomputeStore] at h
    cases he : recomputeEntry v e with
    | none => rw [he] at h; simp at h
    | some e' =>
      rw [he] at h
      cases hr : recomputeStore v rest with
      | none => rw [hr] at h; simp at h
      | some rest' =>
        rw [hr] at h
        simp only [Option.map_some', Option.some.injEq] at h
        subst h
        intro c hc
        rcases List.mem_cons.mp hc with hc | hc
        · have hEOK : EntryOK e := hOK (k, e) (List.mem_cons_self _ _)
          rw [hc]
          exact recomputeEntry_preserves_EntryOK v e e' hEOK he
        · exact ih rest' (fun c2 hc2 => hOK c2 (List.mem_cons_of_mem _ hc2)) hr c hc

theorem update_global_ts_ref_preserves_StoresOK (st st' : VMState) (inp : Option ℤ)
    (b : Bool) (hOK : StoresOK st)
    (h : update_global_ts_ref st inp = some (b, st')) : StoresOK st' := by
  cases inp with
  | none =>
    simp only [update_global_ts_ref, Option.some.injEq, Prod.mk.injEq] at h
    exact h.2 ▸ hOK
  | some v =>
    by_cases h1 : st.global_ts_ref = some v
    · simp only [update_global_ts_ref, h1, if_true, Option.some.injEq, Prod.mk.injEq] at h
      exact h.2 ▸ hOK
    · rw [update_global_ts_ref, if_neg h1] at h
      cases hm : is_mat_loaded st with
      | false =>
        rw [hm] at h
        simp only [Bool.not_false, if_true, Option.some.injEq, Prod.mk.injEq] at h
        exact h.2 ▸ hOK
      | true =>
        rw [hm] at h
        simp only [Bool.not_true, Bool.false_eq_true, if_false] at h
        by_cases he : (st.selected_signals_data.isEmpty && st.selected_di_only_data.isEmpty)
            = true
        · rw [if_pos he] at h
          simp only [Option.some.injEq, Prod.mk.injEq] at h
          exact h.2 ▸ hOK
        · rw [if_neg he] at h
          cases hr1 : recomputeStore v st.selected_signals_data with
          | none => rw [hr1] at h; simp at h
          | some s1 =>
            rw [hr1] at h
            cases hr2 : recomputeStore v st.selected_di_only_data with
            | none => rw [hr2] at h; simp at h
            | some s2 =>
              rw [hr2] at h
              simp only [Option.some.injEq, Prod.mk.injEq] at h
              refine h.2 ▸ ⟨?_, ?_⟩
              · exact recomputeStore_preserves_StoreOK v _ s1 hOK.1 hr1
              · exact recomputeStore_preserves_StoreOK v _ s2 hOK.2 hr2

theorem ReachGuarded_StoresOK (st : VMState) (h : ReachGuarded st) : StoresOK st := by
  induction h with
  | init ms ld g =>
    exact ⟨fun kv hkv => by simp at hkv, fun kv hkv => by simp at hkv⟩
  | step_select st st' p sid b _ hg hsel ih =>
    exact select_item_preserves_StoresOK st st' p sid b ih hg hsel
  | step_deselect st st' p sid b n _ hg hdes ih =>
    exact deselect_item_preserves_StoresOK st st' p sid b n ih hg hdes
  | step_update st st' inp b _ hupd ih =>
    exact update_global_ts_ref_preserves_StoresOK st st' inp b ih hupd
  | step_deselect_all st _ _ =>
    exact ⟨fun kv hkv => by simp [deselect_all_signals] at hkv,
      fun kv hkv => by simp [deselect_all_signals] at hkv⟩

theorem StoreOK_TsInvariant (s : List (String × PyData)) (h : StoreOK s) : TsInvariant s := by
  intro kv hkv e he hex
  obtain ⟨c, hc, hcd, -, -⟩ := hex
  obtain ⟨e', he', hshape⟩ := h kv hkv
  obtain rfl : e = e' := by
    rw [he] at he'
    cases he'
    rfl
  rcases hshape with hs | hs
  · exact hs
  · exact absurd (hs c hc) (by simp [hcd])

/-- C4 (amended): in every state reachable through the SignalStore
operations in which (a) no plain select joins an existing entry that lacks
its `ts`/`ts_raw` keys (`SelectPlainGuard` — custom selects are
unrestricted) and (b) no deselect targets a child named `ts` or `ts_raw`
(`DeselectGuard`), every entry of either selection store holding at least
one non-custom child has both `ts` and `ts_raw` keys.  Without these
guards the invariant fails — see the counterexample, where a plain child
joins a custom-only entry. -/
theorem reachable_entries_have_ts_keys (st : VMState) (h : ReachGuarded st) :
    TsInvariant st.selected_signals_data ∧ TsInvariant st.selected_di_only_data := by
  have hOK := ReachGuarded_StoresOK st h
  exact ⟨StoreOK_TsInvariant _ hOK.1, StoreOK_TsInvariant _ hOK.2⟩

/-- Witness for C4 (amended): the state reached from `mixVM` by a guarded
plain select of `P.c` followed by an (unguarded) custom select of `G.P.cc`
into the same entry; the resulting mixed entry keeps its `ts`/`ts_raw`
keys. -/
theorem reachable_entries_have_ts_keys_witness :
    TsInvariant mixVM2.selected_signals_data ∧ TsInvariant mixVM2.selected_di_only_data :=
  reachable_entries_have_ts_keys mixVM2
    (ReachGuarded.step_select mixVM1 mixVM2 ["G", "P", "cc"] .primary true
      (ReachGuarded.step_select mixVM mixVM1 ["P", "c"] .primary true
        (ReachGuarded.init ".mat" mixVM.loaded_data (some 1))
        (by
          intro td _ e he
          simp [getStore, mixVM] at he)
        rfl)
      (by
        intro td _ e he _
        have he2 : some (PyData.dict [("ts", PyData.arr [9]),
            ("ts_raw", PyData.arr [10]), ("c", PyData.arr [1])]) =
            some (PyData.dict e) := he
        simp only [Option.some.injEq, PyData.dict.injEq] at he2
        subst he2
        exact ⟨rfl, rfl⟩)
      rfl)
